import Mathlib

/-!
Verification of the `ai-daily-harvest` publishing pipeline
(`scripts/publish_harvest.py`).

The script ingests one day's scored article records, classifies them with a
rule-chain verdict classifier, and republishes them across several sinks:
a per-day JSON snapshot, a daily picks document, a Markdown digest, a
cumulative per-source statistics file, an append-only JSONL dataset, a CSV
export, a rolling RSS feed (50 items, deduplicated by link), and two derived
indexes (by-category over a 30-day window, trending keywords over a 7-day
window).

This file shallowly embeds the script in Lean:

* Python dicts that are used in insertion order are modelled as association
  lists; Python sets are modelled as duplicate-free lists (membership is all
  the code observes, except for iteration order of `extract_keywords`'
  result set, which is hash-dependent in Python; the theorems below do not
  depend on that order).
* `sorted(..., reverse=True)` (a stable sort) is modelled by a stable
  insertion sort.
* JSON files on disk are modelled by their parsed contents; a line of the
  JSONL dataset is `Option Article`, `none` standing for a line that fails
  to parse (the script skips such lines when scanning existing keys).
* The RSS feed file is modelled by its list of `<item>` blocks, each an
  explicit character list; link extraction (`re.search("<link>(.*?)</link>")`),
  the `<pubDate></pubDate>` backfill (`str.replace`) and the substring tests
  of the trending extractor are implemented as executable character-list
  scanners with the same leftmost-match semantics as the Python originals.
* Dates are `(year, month, day)` triples; `datetime.strptime(s, "%Y-%m-%d")`
  is reproduced including its field validation, and `strftime` for the
  RFC 822 `pubDate` format is implemented with an explicit day-of-week
  computation.  `datetime.now()` enters as an explicit epoch-day parameter.
* Float rounding (`round(x, 1)` on the derived rate fields of the source
  statistics) is modelled as exact rational rounding half-to-even; the
  derived-rate fields are not the subject of any claim.
-/

namespace Harvest

/-- Character lists; the representation used for all text scanning. -/
abbrev Str := List Char

/-! ### Generic helpers: prefix test, substring search, replace, sorting -/

/-- Boolean prefix test on character lists. -/
def isPrefixB : Str → Str → Bool
  | [], _ => true
  | _ :: _, [] => false
  | p :: ps, c :: cs => if p = c then isPrefixB ps cs else false

/-- Boolean substring test (Python `pat in s`). -/
def containsSub (pat : Str) : Str → Bool
  | [] => isPrefixB pat []
  | c :: cs => isPrefixB pat (c :: cs) || containsSub pat cs

/-- Split at the first occurrence of `pat`: returns the text before the
occurrence and the text after it (Python `re.search` with a literal
pattern, or `str.find`). -/
def splitFirst (pat : Str) : Str → Option (Str × Str)
  | [] => if isPrefixB pat [] then some ([], []) else none
  | c :: cs =>
    if isPrefixB pat (c :: cs) then some ([], (c :: cs).drop pat.length)
    else (splitFirst pat cs).map (fun p => (c :: p.1, p.2))

/-- Replace every (non-overlapping, leftmost-first) occurrence of `pat` by
`repl`, as Python `str.replace` does for a non-empty pattern. -/
def replaceAll (pat repl : Str) : Str → Str
  | [] => []
  | c :: cs =>
    if pat ≠ [] ∧ isPrefixB pat (c :: cs) = true then
      repl ++ replaceAll pat repl (cs.drop (pat.length - 1))
    else
      c :: replaceAll pat repl cs
termination_by s => s.length
decreasing_by
  · simp only [List.length_cons]
    have := List.length_drop (pat.length - 1) cs
    omega
  · simp

/-- Stable insertion of `a` into a list sorted descending by `key`;
`a` precedes later elements with an equal key, matching the stability of
Python's `sorted(..., reverse=True)`. -/
def insertDescBy {α : Type} (key : α → Int) (a : α) : List α → List α
  | [] => [a]
  | b :: bs => if key b ≤ key a then a :: b :: bs else b :: insertDescBy key a bs

/-- Stable descending sort by an integer key
(Python `sorted(xs, key=key, reverse=True)`). -/
def sortDescBy {α : Type} (key : α → Int) : List α → List α
  | [] => []
  | a :: as => insertDescBy key a (sortDescBy key as)

/-- Lexicographic strict comparison of character lists, as Python compares
strings (by code point). -/
def lexLt : Str → Str → Bool
  | [], [] => false
  | [], _ :: _ => true
  | _ :: _, [] => false
  | a :: as, b :: bs => if a < b then true else if a = b then lexLt as bs else false

/-- Lexicographic non-strict comparison of character lists. -/
def lexLe (a b : Str) : Bool := lexLt a b || a = b

/-- Lowercase a string character-wise (ASCII, which is all the script
lowercases). -/
def strLower (s : String) : String := ⟨s.data.map Char.toLower⟩

/-- Insert-if-absent at the back: models adding to a Python `dict` /
insertion-ordered set. -/
def addKey {α : Type} [DecidableEq α] (acc : List α) (x : α) : List α :=
  if x ∈ acc then acc else acc ++ [x]

/-- Bump a counter in an insertion-ordered association list
(`d[k] = d.get(k, 0) + 1`). -/
def bumpKey {κ : Type} [DecidableEq κ] : List (κ × Nat) → κ → List (κ × Nat)
  | [], k => [(k, 1)]
  | (k', n) :: rest, k =>
    if k' = k then (k', n + 1) :: rest else (k', n) :: bumpKey rest k

/-- Look a counter up in an association list, defaulting to `0`. -/
def lookupCount {κ : Type} [DecidableEq κ] : List (κ × Nat) → κ → Nat
  | [], _ => 0
  | (k', n) :: rest, k => if k' = k then n else lookupCount rest k

/-! ### Data model -/

/-- Verdict labels assigned by the classifier. -/
inductive Verdict
  | must_read
  | worth_reading
  | neutral
  | noise
  | overhyped
deriving DecidableEq

/-- Wire names of the verdicts (used in the JSONL/CSV exports). -/
def verdictStr : Verdict → String
  | .must_read => "must_read"
  | .worth_reading => "worth_reading"
  | .neutral => "neutral"
  | .noise => "noise"
  | .overhyped => "overhyped"

/-- Display labels (`VERDICT_LABELS`). -/
def verdictLabel : Verdict → String
  | .must_read => "Must Read"
  | .worth_reading => "Worth Reading"
  | .neutral => "Neutral"
  | .noise => "Noise"
  | .overhyped => "Overhyped"

/-- Fixed verdict order (`VERDICT_ORDER`). -/
def VERDICT_ORDER : List Verdict :=
  [.must_read, .worth_reading, .neutral, .noise, .overhyped]

/-- A raw upstream (ODS cache) article record.  Every field the script reads
with `.get(key, default)` is optional here; `none` models an absent key. -/
structure RawArticle where
  title : Option String
  link : Option String
  source : Option String
  category : Option String
  pub_date : Option String
  summary : Option String
  core_point : Option String
  highlights : Option (List String)
  why_matters : Option String
  score : Option Int
  level : Option String
  novelty : Option Int
  depth : Option Int
  noise : Option Int
  credibility : Option Int
  rejected : Option Bool
deriving DecidableEq

/-- The canonical public record produced by `clean_article`. -/
structure Article where
  title : String
  link : String
  source : String
  source_channel : String
  category : String
  pub_date : String
  summary : String
  core_point : String
  highlights : List String
  why_matters : String
  score : Int
  level : String
  verdict : Verdict
deriving DecidableEq

/-! ### Verdict classifier (`assign_verdict`) -/

/-- The ordered rule chain of `assign_verdict`, as a function of the five
scoring values it reads (after defaulting).  First matching rule wins. -/
def classify (score novelty depth noise credibility : Int) : Verdict :=
  if 85 ≤ score then .must_read
  else if 75 ≤ score ∧ score ≤ 84 ∧ (2 ≤ novelty ∨ 2 ≤ depth) then .worth_reading
  else if 60 ≤ score ∧ score ≤ 69 ∧ noise ≤ 1 then .noise
  else if 70 ≤ score ∧ novelty = 0 ∧ credibility ≤ 1 then .overhyped
  else .neutral

/-- `assign_verdict`: reads the five dimensions with default `0` and runs the
rule chain. -/
def assign_verdict (a : RawArticle) : Verdict :=
  classify (a.score.getD 0) (a.novelty.getD 0) (a.depth.getD 0)
    (a.noise.getD 0) (a.credibility.getD 0)

/-- `clean_article`: extract the public fields, defaulting absent ones, and
attach the verdict. -/
def clean_article (a : RawArticle) (channel : String) : Article :=
  { title := a.title.getD ("")
    link := a.link.getD ("")
    source := a.source.getD ("")
    source_channel := channel
    category := a.category.getD ("")
    pub_date := a.pub_date.getD ("")
    summary := a.summary.getD ("")
    core_point := a.core_point.getD ("")
    highlights := a.highlights.getD []
    why_matters := a.why_matters.getD ("")
    score := a.score.getD 0
    level := a.level.getD ("")
    verdict := assign_verdict a }

/-- Stable descending sort of articles by score
(`sorted(articles, key=lambda x: x["score"], reverse=True)`). -/
def sortByScoreDesc (l : List Article) : List Article :=
  sortDescBy (fun a => a.score) l

/-! ### Append-only dataset (`append_dataset`) -/

/-- The natural key used for deduplication: `(pub_date, title)`. -/
def entryKey (a : Article) : String × String := (a.pub_date, a.title)

/-- The set of keys present in the existing JSONL log; unparseable lines
(`none`) are skipped, as in the script's `json.JSONDecodeError` handler. -/
def datasetKeys (log : List (Option Article)) : List (String × String) :=
  (log.filterMap id).map entryKey

/-- `append_dataset`: sort the day's batch by descending score and append
every record whose key is not among the keys of the pre-existing log.
The scanned key set is not extended while appending, exactly as in the
script. -/
def append_dataset (log : List (Option Article)) (batch : List Article) :
    List (Option Article) :=
  log ++
    ((sortByScoreDesc batch).filter
      (fun a => entryKey a ∉ datasetKeys log)).map some

/-- The `new_count` reported by `append_dataset`: the number of lines the
call appends. -/
def appendNewCount (log : List (Option Article)) (batch : List Article) : Nat :=
  ((sortByScoreDesc batch).filter (fun a => entryKey a ∉ datasetKeys log)).length

/-- Number of parseable entries of the log carrying the key `k`. -/
def keyCount (k : String × String) (log : List (Option Article)) : Nat :=
  (log.filterMap id).countP (fun a => entryKey a = k)

/-! ### Dates

`datetime.strptime(s, "%Y-%m-%d")` and `strftime("%a, %d %b %Y 00:00:00 GMT")`.
Python's `_strptime` matches `%Y` as exactly four digits and `%m`/`%d` as one
or two digits constrained to the patterns `1[0-2]|0[1-9]|[1-9]` and
`3[01]|[12]\d|0[1-9]|[1-9]`, requires the whole string to be consumed, and the
`datetime` constructor then validates the day against the month length. -/

/-- A calendar date as `datetime.date` carries it. -/
structure Date where
  year : Int
  month : Int
  day : Int
deriving DecidableEq

/-- Gregorian leap-year test. -/
def isLeap (y : Int) : Bool := y % 4 = 0 ∧ (y % 100 ≠ 0 ∨ y % 400 = 0)

/-- Length of a month. -/
def daysInMonth (y m : Int) : Int :=
  if m = 2 then (if isLeap y then 29 else 28)
  else if m = 4 ∨ m = 6 ∨ m = 9 ∨ m = 11 then 30
  else 31

/-- Numeric value of a decimal digit character. -/
def digitVal (c : Char) : Int := (c.toNat : Int) - 48

/-- Match `%m`: two digits when they form `01`–`12`, else one digit `1`–`9`. -/
def parseMonthField : Str → Option (Int × Str)
  | [] => none
  | [c1] => if c1.isDigit ∧ 1 ≤ digitVal c1 then some (digitVal c1, []) else none
  | c1 :: c2 :: rest =>
    if c1.isDigit ∧ c2.isDigit ∧ 1 ≤ digitVal c1 * 10 + digitVal c2 ∧
        digitVal c1 * 10 + digitVal c2 ≤ 12 then
      some (digitVal c1 * 10 + digitVal c2, rest)
    else if c1.isDigit ∧ 1 ≤ digitVal c1 then some (digitVal c1, c2 :: rest)
    else none

/-- Match `%d`: two digits when they form `01`–`31`, else one digit `1`–`9`. -/
def parseDayField : Str → Option (Int × Str)
  | [] => none
  | [c1] => if c1.isDigit ∧ 1 ≤ digitVal c1 then some (digitVal c1, []) else none
  | c1 :: c2 :: rest =>
    if c1.isDigit ∧ c2.isDigit ∧ 1 ≤ digitVal c1 * 10 + digitVal c2 ∧
        digitVal c1 * 10 + digitVal c2 ≤ 31 then
      some (digitVal c1 * 10 + digitVal c2, rest)
    else if c1.isDigit ∧ 1 ≤ digitVal c1 then some (digitVal c1, c2 :: rest)
    else none

/-- `datetime.strptime(s, "%Y-%m-%d")`, returning `none` where Python raises
`ValueError`. -/
def parseDate (s : String) : Option Date :=
  match s.data with
  | y1 :: y2 :: y3 :: y4 :: '-' :: rest =>
    if y1.isDigit ∧ y2.isDigit ∧ y3.isDigit ∧ y4.isDigit then
      let y := digitVal y1 * 1000 + digitVal y2 * 100 + digitVal y3 * 10 + digitVal y4
      match parseMonthField rest with
      | some (m, '-' :: rest2) =>
        match parseDayField rest2 with
        | some (d, []) =>
          if 1 ≤ y ∧ 1 ≤ d ∧ d ≤ daysInMonth y m then some ⟨y, m, d⟩ else none
        | _ => none
      | _ => none
    else none
  | _ => none

/-- Days since 1970-01-01 (proleptic Gregorian); the standard
`days_from_civil` computation.  Only executability and determinism matter
here: no claim depends on calendar arithmetic being correct. -/
def epochDay (d : Date) : Int :=
  let y := if d.month ≤ 2 then d.year - 1 else d.year
  let era := (if 0 ≤ y then y else y - 399).ediv 400
  let yoe := y - era * 400
  let mp := (d.month + 9).emod 12
  let doy := (153 * mp + 2).ediv 5 + d.day - 1
  let doe := yoe * 365 + yoe.ediv 4 - yoe.ediv 100 + doy
  era * 146097 + doe - 719468

/-- Inverse of `epochDay` (`civil_from_days`). -/
def civilFromDays (z0 : Int) : Date :=
  let z := z0 + 719468
  let era := (if 0 ≤ z then z else z - 146096).ediv 146097
  let doe := z - era * 146097
  let yoe := (doe - doe.ediv 1460 + doe.ediv 36524 - doe.ediv 146096).ediv 365
  let y := yoe + era * 400
  let doy := doe - (365 * yoe + yoe.ediv 4 - yoe.ediv 100)
  let mp := (5 * doy + 2).ediv 153
  let d := doy - (153 * mp + 2).ediv 5 + 1
  let m := if mp < 10 then mp + 3 else mp - 9
  ⟨if m ≤ 2 then y + 1 else y, m, d⟩

/-- Decimal digit character for `n % 10` (written as a decision chain so
facts about the produced character are provable by case analysis). -/
def digitChar (n : Int) : Char :=
  if n.emod 10 = 0 then '0'
  else if n.emod 10 = 1 then '1'
  else if n.emod 10 = 2 then '2'
  else if n.emod 10 = 3 then '3'
  else if n.emod 10 = 4 then '4'
  else if n.emod 10 = 5 then '5'
  else if n.emod 10 = 6 then '6'
  else if n.emod 10 = 7 then '7'
  else if n.emod 10 = 8 then '8'
  else '9'

/-- Zero-padded two-digit rendering (`%d`, and the date components of
`%Y-%m-%d`). -/
def pad2 (n : Int) : Str := [digitChar (n.ediv 10), digitChar n]

/-- Zero-padded four-digit rendering (`%Y`). -/
def pad4 (n : Int) : Str :=
  [digitChar (n.ediv 1000), digitChar (n.ediv 100), digitChar (n.ediv 10), digitChar n]

/-- POSIX weekday abbreviation for `date.weekday()` index `w ∈ [0, 6]`,
Monday first (the indexing of the abbreviation table, as a decision chain). -/
def weekdayName (w : Int) : String :=
  if w = 0 then "Mon"
  else if w = 1 then "Tue"
  else if w = 2 then "Wed"
  else if w = 3 then "Thu"
  else if w = 4 then "Fri"
  else if w = 5 then "Sat"
  else "Sun"

/-- POSIX month abbreviation for month `m ∈ [1, 12]`. -/
def monthName (m : Int) : String :=
  if m = 1 then "Jan"
  else if m = 2 then "Feb"
  else if m = 3 then "Mar"
  else if m = 4 then "Apr"
  else if m = 5 then "May"
  else if m = 6 then "Jun"
  else if m = 7 then "Jul"
  else if m = 8 then "Aug"
  else if m = 9 then "Sep"
  else if m = 10 then "Oct"
  else if m = 11 then "Nov"
  else "Dec"

/-- `strftime("%a, %d %b %Y 00:00:00 GMT")`, the RFC 822 `pubDate` format. -/
def rfc822 (d : Date) : Str :=
  (weekdayName ((epochDay d + 3).emod 7)).data ++
    ", ".data ++ pad2 d.day ++ " ".data ++ (monthName d.month).data ++
    " ".data ++ pad4 d.year ++ " 00:00:00 GMT".data

/-- `strftime("%Y-%m-%d")`: the snapshot file key for an epoch day. -/
def formatDate (z : Int) : String :=
  let d := civilFromDays z
  ⟨pad4 d.year ++ "-".data ++ pad2 d.month ++ "-".data ++ pad2 d.day⟩

/-! ### Rolling RSS feed (`generate_rss`)

The feed file is modelled by its list of `<item>` blocks.  The three literal
segments that surround the title and the link in a rendered item are written
as explicit character lists because the proofs scan through them. -/

/-- `xml.sax.saxutils.escape`: escape `&`, `<`, `>` character-wise. -/
def xmlEscape : Str → Str
  | [] => []
  | c :: cs =>
    (if c = '&' then ("&amp;".data)
     else if c = '<' then ("&lt;".data)
     else if c = '>' then ("&gt;".data)
     else [c]) ++ xmlEscape cs

/-- The literal `<link>` tag searched for by the dedup regex. -/
def linkOpen : Str := ['<', 'l', 'i', 'n', 'k', '>']

/-- The literal `</link>` tag. -/
def linkClose : Str := ['<', '/', 'l', 'i', 'n', 'k', '>']

/-- The item template up to the title: `<item>\n  <title>`. -/
def segItemTitle : Str :=
  ['<', 'i', 't', 'e', 'm', '>', '\n', ' ', ' ', '<', 't', 'i', 't', 'l', 'e', '>']

/-- The item template between title and link: `</title>\n  <link>`. -/
def segTitleLink : Str :=
  ['<', '/', 't', 'i', 't', 'l', 'e', '>', '\n', ' ', ' ', '<', 'l', 'i', 'n', 'k', '>']

/-- The literal `<pubDate>` tag. -/
def pubOpen : Str := ['<', 'p', 'u', 'b', 'D', 'a', 't', 'e', '>']

/-- The literal `</pubDate>` tag. -/
def pubClose : Str := ['<', '/', 'p', 'u', 'b', 'D', 'a', 't', 'e', '>']

/-- The marker `<pubDate></pubDate>` that the repair pass replaces. -/
def emptyPubDate : Str := pubOpen ++ pubClose

/-- A filled `<pubDate>…</pubDate>` element. -/
def filledPubDate (d : Str) : Str := pubOpen ++ d ++ pubClose

/-- `re.search(r"<link>(.*?)</link>", item)`: find the leftmost `<link>`,
then capture lazily up to the next `</link>`.  (If no `</link>` follows the
first `<link>`, none follows any later one either, so returning `none` there
agrees with the regex.) -/
def extractLink (item : Str) : Option Str :=
  match splitFirst linkOpen item with
  | none => none
  | some (_, rest) =>
    match splitFirst linkClose rest with
    | none => none
    | some (l, _) => some l

/-- The repair pass on one existing item: backfill an empty `pubDate`
element with the run date (`item.replace("<pubDate></pubDate>", ...)`). -/
def backfillItem (fallback : Str) (item : Str) : Str :=
  replaceAll emptyPubDate (filledPubDate fallback) item

/-- Description body: raw summary, plus an escaped highlight list when
non-empty.  The summary is inserted verbatim (the script relies on CDATA). -/
def descOf (a : Article) : Str :=
  a.summary.data ++
    (if a.highlights = [] then []
     else ("<ul>".data) ++
       a.highlights.foldr (fun h acc => "<li>".data ++ xmlEscape h.data ++ "</li>".data ++ acc) [] ++
       "</ul>".data)

/-- The item's `pubDate` text: the record's own publication date when it
parses, else the run date. -/
def rfc822OfArticle (runDate : Date) (a : Article) : Str :=
  rfc822 ((parseDate a.pub_date).getD runDate)

/-- The rendered item up to and including `</link>`. -/
def itemHead (a : Article) : Str :=
  segItemTitle ++ xmlEscape a.title.data ++ segTitleLink ++
    xmlEscape a.link.data ++ linkClose

/-- The rendered item after `</link>`. -/
def itemTail (runDate : Date) (a : Article) : Str :=
  "\n  <description><![CDATA[".data ++ descOf a ++
    "]]></description>\n  <category>".data ++ xmlEscape a.category.data ++
    "</category>\n  <pubDate>".data ++ rfc822OfArticle runDate a ++
    "</pubDate>\n  <source url=\x22".data ++ xmlEscape a.link.data ++
    "\x22>".data ++ xmlEscape a.source.data ++ "</source>\n</item>".data

/-- One rendered feed item. -/
def renderItem (runDate : Date) (a : Article) : Str :=
  itemHead a ++ itemTail runDate a

/-- Today's feed items: qualifying records (verdict `must_read` or
`worth_reading`), sorted by descending score, rendered. -/
def newFeedItems (runDate : Date) (articles : List Article) : List Str :=
  (sortByScoreDesc (articles.filter
      (fun a => a.verdict = .must_read ∨ a.verdict = .worth_reading))).map
    (renderItem runDate)

/-- The merge loop: keep an item unless a `<link>` can be extracted from it
and that link was already seen; record seen links. -/
def dedupByLink (seen : List Str) : List Str → List Str
  | [] => []
  | i :: is =>
    match extractLink i with
    | some l =>
      if l ∈ seen then dedupByLink seen is else i :: dedupByLink (l :: seen) is
    | none => i :: dedupByLink seen is

/-- Two feed items do not share a link: any link extracted from the first is
not the link of the second. -/
def linkDistinct (x y : Str) : Prop :=
  ∀ l, extractLink x = some l → extractLink y ≠ some l

/-- The seen-link set after the merge loop has processed a list. -/
def seenAfter (seen : List Str) : List Str → List Str
  | [] => seen
  | i :: is =>
    match extractLink i with
    | some l => if l ∈ seen then seenAfter seen is else seenAfter (l :: seen) is
    | none => seenAfter seen is

/-- `generate_rss`, at the level of item lists: render today's qualifying
records, backfill the existing items' empty `pubDate`s with the run date,
concatenate new before old, deduplicate by link keeping the first
occurrence, and truncate to 50. -/
def mergeFeed (runDate : Date) (articles : List Article) (old : List Str) :
    List Str :=
  (dedupByLink []
      (newFeedItems runDate articles ++ old.map (backfillItem (rfc822 runDate)))).take 50

/-! ### Cumulative source statistics (`update_source_stats`) -/

/-- Round half-to-even to an integer.  Python's `round` operates on binary
floats; this is its exact-rational counterpart (the rounded rate fields are
not the subject of any claim). -/
def roundHalfEven (q : Rat) : Int :=
  let f := q.floor
  let r := q - f
  if r < 1 / 2 then f
  else if 1 / 2 < r then f + 1
  else if f % 2 = 0 then f else f + 1

/-- `round(q, 1)`. -/
def roundTo1 (q : Rat) : Rat := (roundHalfEven (q * 10) : Rat) / 10

/-- One per-source statistics entry.  Python creates the entry without the
three derived fields and always sets them before persisting; the initial
values here are never observable. -/
structure SourceStat where
  articles_count : Nat
  total_score : Int
  must_read_count : Nat
  noise_count : Nat
  first_seen : String
  last_seen : String
  avg_score : Rat
  must_read_rate : Rat
  noise_rate : Rat
deriving DecidableEq

/-- The freshly created entry for a source first seen on `date`. -/
def initStat (date : String) : SourceStat := ⟨0, 0, 0, 0, date, date, 0, 0, 0⟩

/-- Merge one source's articles of the day into its entry: add the count,
score sum, must-read and noise+overhyped counts, set `last_seen`, recompute
the derived rates. -/
def bumpStat (date : String) (todays : List Article) (s : SourceStat) : SourceStat :=
  let scores := todays.map (fun a => a.score)
  let verdicts := todays.map (fun a => a.verdict)
  let ac := s.articles_count + scores.length
  let ts := s.total_score + scores.sum
  let mr := s.must_read_count + verdicts.countP (fun v => v = .must_read)
  let nc := s.noise_count +
    (verdicts.countP (fun v => v = .noise) + verdicts.countP (fun v => v = .overhyped))
  { articles_count := ac
    total_score := ts
    must_read_count := mr
    noise_count := nc
    first_seen := s.first_seen
    last_seen := date
    avg_score := roundTo1 ((ts : Rat) / (ac : Rat))
    must_read_rate := roundTo1 ((mr : Rat) / (ac : Rat) * 100)
    noise_rate := roundTo1 ((nc : Rat) / (ac : Rat) * 100) }

/-- The `sources` mapping, as an insertion-ordered association list. -/
abbrev StatsMap := List (String × SourceStat)

/-- Dict lookup. -/
def lookupStat : StatsMap → String → Option SourceStat
  | [], _ => none
  | (k, v) :: rest, s => if k = s then some v else lookupStat rest s

/-- Dict store: replace in place, or append a new key at the end. -/
def setStat : StatsMap → String → SourceStat → StatsMap
  | [], k, v => [(k, v)]
  | (k', v') :: rest, k, v =>
    if k' = k then (k', v) :: rest else (k', v') :: setStat rest k v

/-- The distinct sources of today's batch, in first-occurrence order
(the iteration order of `today_by_source`). -/
def todaySources (arts : List Article) : List String :=
  arts.foldl (fun acc a => addKey acc a.source) []

/-- `update_source_stats`, as a pure merge on the `sources` mapping. -/
def update_source_stats (m : StatsMap) (arts : List Article) (date : String) :
    StatsMap :=
  (todaySources arts).foldl
    (fun acc src =>
      setStat acc src
        (bumpStat date (arts.filter (fun a => a.source = src))
          ((lookupStat acc src).getD (initStat date))))
    m

/-- The whole statistics document (`sources` plus the `updated` stamp). -/
structure StatsDoc where
  sources : StatsMap
  updated : String
deriving DecidableEq

/-! ### Trending keywords -/

/-- `_STOP_WORDS`. -/
def STOP_WORDS : List String :=
  ["the", "a", "an", "is", "are", "was", "were", "in", "on", "at", "to",
   "for", "of", "and", "or", "not", "with", "from", "by", "as", "it",
   "its", "this", "that", "be", "has", "have", "had", "will", "can",
   "do", "does", "did", "but", "if", "so", "than", "more", "about",
   "how", "what", "when", "where", "who", "which", "all", "your", "you",
   "new", "one", "two", "up", "out", "just", "into"]

/-- `_CN_STOP` (declared by the script; not read by `extract_keywords`). -/
def CN_STOP : List String :=
  ["的", "了", "在", "是", "我", "有", "和", "就", "不", "人", "都",
   "一", "一个", "上", "也", "很", "到", "说", "要", "去", "你", "会",
   "着", "没有", "看", "好", "自己", "这", "他", "她", "它", "吗", "什么",
   "我们", "那", "被", "让", "把", "还", "对", "用", "能", "与", "及",
   "等", "从", "为", "之", "而", "以", "如", "中", "大", "年", "月", "日"]

/-- `_CN_KNOWN_TERMS`. -/
def CN_KNOWN_TERMS : List String :=
  ["大模型", "大语言模型", "多模态", "生成式", "预训练", "微调", "蒸馏",
   "推理", "训练", "对齐", "强化学习", "注意力机制", "上下文窗口",
   "智能体", "多智能体", "工作流", "自动化", "代码生成", "代码审查",
   "知识图谱", "向量数据库", "检索增强", "提示工程", "函数调用",
   "谷歌", "百度", "腾讯", "阿里", "字节", "华为", "苹果", "微软", "英伟达",
   "开源", "闭源",
   "融资", "估值", "芯片", "算力", "数据中心", "端侧", "云端",
   "安全", "隐私", "版权", "监管"]

/-- ASCII letter test (`[A-Za-z]`). -/
def isAsciiAlpha (c : Char) : Bool :=
  ('A' ≤ c ∧ c ≤ 'Z') ∨ ('a' ≤ c ∧ c ≤ 'z')

/-- ASCII alphanumeric test (`[A-Za-z0-9]`). -/
def isAsciiAlnum (c : Char) : Bool :=
  isAsciiAlpha c || ('0' ≤ c ∧ c ≤ '9')

/-- `re.findall(r"[A-Za-z][A-Za-z0-9]+", title)`: leftmost non-overlapping
maximal matches; a lone letter (empty run) is not a match and scanning
resumes at the next character. -/
def engTokens : Str → List Str
  | [] => []
  | c :: cs =>
    if isAsciiAlpha c then
      if cs.takeWhile isAsciiAlnum = [] then engTokens cs
      else (c :: cs.takeWhile isAsciiAlnum) :: engTokens (cs.dropWhile isAsciiAlnum)
    else engTokens cs
termination_by s => s.length
decreasing_by
  · simp
  · have := (List.dropWhile_sublist isAsciiAlnum (l := cs)).length_le
    simp only [List.length_cons]
    omega
  · simp

/-- `extract_keywords`: English tokens of length ≥ 3 outside the stop list,
kept as-is when the first character is upper-case (which also covers
Python's `w.isupper()`, since the first character is a letter) and
lower-cased otherwise; plus every known Chinese term occurring as a
substring.  The result models the Python set as a duplicate-free list. -/
def extract_keywords (title : String) : List String :=
  let eng := (engTokens title.data).foldl
    (fun ws tok =>
      let wl := tok.map Char.toLower
      if 3 ≤ wl.length ∧ (⟨wl⟩ : String) ∉ STOP_WORDS then
        addKey ws (if tok.headI.isUpper then (⟨tok⟩ : String) else (⟨wl⟩ : String))
      else ws)
    []
  CN_KNOWN_TERMS.foldl
    (fun ws term => if containsSub term.data title.data then addKey ws term else ws)
    eng

/-- The 7-day keyword counter (`keyword_counts`), an insertion-ordered dict. -/
def keywordCounts (arts : List Article) : List (String × Nat) :=
  arts.foldl (fun m a => (extract_keywords a.title).foldl bumpKey m) []

/-- The emitted trending list: sort by descending count, keep counts ≥ 2,
take the top 20. -/
def trendingList (arts : List Article) : List (String × Nat) :=
  ((sortDescBy (fun p => (p.2 : Int)) (keywordCounts arts)).filter
      (fun p => 2 ≤ p.2)).take 20

/-- The `trending.json` document. -/
structure TrendingDoc where
  updated : String
  window : String
  article_count : Nat
  trending : List (String × Nat)
deriving DecidableEq

/-! ### Snapshots and derived indexes -/

/-- One `api/{date}.json` snapshot. -/
structure Snapshot where
  date : String
  total : Nat
  verdict_counts : List (Verdict × Nat)
  articles : List Article
deriving DecidableEq

/-- `generate_json`: the day's snapshot document. -/
def generate_json_doc (arts : List Article) (dateStr : String) : Snapshot :=
  let sorted := sortByScoreDesc arts
  ⟨dateStr, sorted.length, sorted.foldl (fun m a => bumpKey m a.verdict) [], sorted⟩

/-- One entry of the by-category index. -/
structure CatEntry where
  title : String
  link : String
  source : String
  score : Int
  verdict : Verdict
  pub_date : String
  why_matters : String
deriving DecidableEq

/-- The reduced field set stored per indexed article. -/
def catEntryOf (a : Article) : CatEntry :=
  ⟨a.title, a.link, a.source, a.score, a.verdict, a.pub_date, a.why_matters⟩

/-- Append an entry to its category's group (groups in first-occurrence
order, entries appended at the back). -/
def addToGroup :
    List (String × List CatEntry) → String → CatEntry → List (String × List CatEntry)
  | [], cat, e => [(cat, [e])]
  | (c, es) :: rest, cat, e =>
    if c = cat then (c, es ++ [e]) :: rest else (c, es) :: addToGroup rest cat e

/-- Group the window's articles with score ≥ 75 by category.  (Articles of
this pipeline always carry a `category` field, so the `.get("category",
"Other")` default never fires in the model.) -/
def groupByCat (arts : List Article) : List (String × List CatEntry) :=
  arts.foldl
    (fun acc a => if a.score < 75 then acc else addToGroup acc a.category (catEntryOf a))
    []

/-- The `by-category.json` document. -/
structure CatIndex where
  updated : String
  categories : List (String × List CatEntry)
deriving DecidableEq

/-- `load_recent_data`: concatenate the articles of the snapshots of the
last `days` days, **ending at the wall-clock day `now`** (`datetime.now()`),
newest first; missing snapshots contribute nothing.  The snapshot store is
abstracted as a map from epoch day to snapshot. -/
def load_recent_data (api : Int → Option Snapshot) (now : Int) (days : Nat) :
    List Article :=
  (List.range days).foldl
    (fun acc (i : Nat) => acc ++ ((api (now - ↑i)).map Snapshot.articles).getD [])
    []

/-- `update_indexes`: build `by-category.json` from the 30-day window and
`trending.json` from the score-≥ 70 articles of the 7-day window, both
stamped with the run's target date string. -/
def update_indexes_docs (dateStr : String) (api : Int → Option Snapshot)
    (now : Int) : CatIndex × TrendingDoc :=
  let arts30 := load_recent_data api now 30
  let cats := (groupByCat arts30).map
    (fun p => (p.1, sortDescBy (fun e => e.score) p.2))
  let arts7 := load_recent_data api now 7
  let q7 := arts7.filter (fun a => 70 ≤ a.score)
  (⟨dateStr, cats⟩, ⟨dateStr, "7d", q7.length, trendingList q7⟩)

/-! ### Stateless renderers: daily picks, Markdown digest, CSV export -/

/-- One entry of the daily picks document. -/
structure PickItem where
  title : String
  link : String
  source : String
  score : Int
  why : String
deriving DecidableEq

/-- The `lists/daily-picks.json` document: per verdict (in fixed order), the
day's records sorted by descending score, reduced to five fields. -/
structure Picks where
  date : String
  groups : List (Verdict × List PickItem)
deriving DecidableEq

/-- `generate_daily_picks`. -/
def generate_daily_picks_doc (arts : List Article) (dateStr : String) : Picks :=
  ⟨dateStr,
    VERDICT_ORDER.map (fun v =>
      (v, (sortByScoreDesc (arts.filter (fun a => a.verdict = v))).map
        (fun a => ⟨a.title, a.link, a.source, a.score, a.why_matters⟩)))⟩

/-- Position of the first occurrence of `pat` (Python `str.find`), `-1` when
absent. -/
def strFind (s pat : Str) : Int :=
  match splitFirst pat s with
  | some p => (p.1.length : Int)
  | none => -1

/-- Position of the last occurrence of the character `c` (Python
`str.rfind` with a single-character needle), `-1` when absent. -/
def strRFind (s : Str) (c : Char) : Int :=
  if c ∈ s then (s.length : Int) - 1 - (s.reverse.takeWhile (fun x => x ≠ c)).length
  else -1

/-- Python `str.rstrip(set)`: drop trailing characters belonging to `set`. -/
def rstripChars (s : Str) (set : List Char) : Str :=
  (s.reverse.dropWhile (fun c => c ∈ set)).reverse

/-- Python `str.strip()`: drop leading and trailing whitespace. -/
def stripWs (s : Str) : Str :=
  ((s.dropWhile Char.isWhitespace).reverse.dropWhile Char.isWhitespace).reverse

/-- `extract_theme(summary, max_len=40)`. -/
def extract_theme (summary : String) : String :=
  let s := summary.data
  if s = [] then ""
  else if s.length ≤ 40 then ⟨rstripChars s ['。']⟩
  else
    let idx1 := strFind s ['，']
    let idx2 := strFind s ['。']
    let idx3 := strFind s ['；']
    if 15 < idx1 ∧ idx1 ≤ 40 then ⟨s.take idx1.toNat⟩
    else if 15 < idx2 ∧ idx2 ≤ 40 then ⟨s.take idx2.toNat⟩
    else if 15 < idx3 ∧ idx3 ≤ 40 then ⟨s.take idx3.toNat⟩
    else
      let truncated := s.take 40
      let lastC := truncated.getLast?.getD ' '
      let truncated2 :=
        if lastC.toNat < 128 ∧ isAsciiAlpha lastC then
          if 20 < strRFind truncated ' ' then truncated.take (strRFind truncated ' ').toNat
          else truncated
        else truncated
      ⟨rstripChars truncated2 ['，', '。', '；', '、', ' '] ++ ['…']⟩

/-- Title shortened to 60 characters for the top-picks list. -/
def mdTitleShort (t : String) : String :=
  if 60 < t.data.length then (⟨t.data.take 60⟩ : String) ++ "..." else t

/-- Title shortened to 80 characters for a section heading. -/
def mdTitleDisplay (t : String) : String :=
  if 80 < t.data.length then (⟨t.data.take 80⟩ : String) ++ "…" else t

/-- The internal-annotation scrub applied to `core_point` (four
`str.replace` passes, left to right), followed by `strip()`. -/
def cleanCorePoint (s : String) : String :=
  ⟨stripWs (replaceAll ("疑似 PR 稿".data) []
    (replaceAll ("疑似PR稿".data) []
      (replaceAll ("疑似 PR 稿。".data) []
        (replaceAll ("疑似PR稿。".data) [] s.data))))⟩

/-- The Markdown lines emitted for one article. -/
def mdArticleLines (a : Article) : List String :=
  ["### [" ++ mdTitleDisplay a.title ++ "](" ++ a.link ++ ") — " ++
      toString a.score ++ "/100",
   "**" ++ a.source ++ "** · " ++ a.category ++ " · " ++ a.level,
   "> " ++ a.summary,
   ""] ++
  (if a.core_point ≠ "" then
     (if cleanCorePoint a.core_point ≠ "" then [cleanCorePoint a.core_point] else []) ++ [""]
   else []) ++
  (if a.highlights ≠ [] then a.highlights.map (fun h => "- " ++ h) ++ [""] else []) ++
  (if a.why_matters ≠ "" then ["**Why it matters:** " ++ a.why_matters, ""] else []) ++
  ["---", ""]

/-- `generate_markdown`: the digest document, as its final string. -/
def generate_markdown_str (arts : List Article) (dateStr : String) : String :=
  let verdictCounts := arts.foldl (fun m a => bumpKey m a.verdict) []
  let must_reads := sortByScoreDesc (arts.filter (fun a => a.verdict = .must_read))
  let verdict_parts := VERDICT_ORDER.filterMap (fun v =>
    if 0 < lookupCount verdictCounts v then
      some ("**" ++ toString (lookupCount verdictCounts v) ++ "** " ++
        strLower (verdictLabel v))
    else none)
  let source_counts := arts.foldl (fun m a => bumpKey m a.source) []
  let top_sources := (sortDescBy (fun p => ((p.2 : Int))) source_counts).take 3
  let top_str := String.intercalate (" · ")
    (top_sources.map (fun p => p.1 ++ " (" ++ toString p.2 ++ ")"))
  let themeLines :=
    if must_reads ≠ [] then
      let digest := String.intercalate (" · ")
        ((must_reads.take 3).map (fun a => extract_theme a.summary))
      let extra : Int := (must_reads.length : Int) - 3
      ["> **Must Read** — " ++
        (if 0 < extra then digest ++ " (+" ++ toString extra ++ " more)" else digest),
       ">"]
    else []
  let picksLines :=
    if must_reads ≠ [] then
      (must_reads.take 5).map (fun a =>
        "- **" ++ toString a.score ++ "** [" ++ mdTitleShort a.title ++ "](" ++
          a.link ++ ") — " ++ a.source) ++ [""]
    else []
  let groupLines := VERDICT_ORDER.foldl
    (fun acc v =>
      if v = .noise ∨ v = .overhyped then acc
      else
        let group := sortByScoreDesc (arts.filter (fun a => a.verdict = v))
        if group = [] then acc
        else acc ++ ["## " ++ verdictLabel v, ""] ++
          group.foldl (fun l a => l ++ mdArticleLines a) [])
    []
  String.intercalate "\n"
    (["# AI Daily Harvest — " ++ dateStr, "", "## Overview", ""] ++ themeLines ++
      ["> " ++ toString arts.length ++ " articles: " ++
          String.intercalate (" · ") verdict_parts,
        ">", "> Top sources: " ++ top_str, ""] ++
      picksLines ++ groupLines)

/-- CSV field under `QUOTE_ALL`: wrap in double quotes, double inner quotes. -/
def csvField (s : String) : String :=
  ⟨'\x22' :: s.data.foldr
      (fun c acc => if c = '\x22' then '\x22' :: '\x22' :: acc else c :: acc)
      ['\x22']⟩

/-- The thirteen row fields of the CSV export, in `fieldnames` order. -/
def csvRowFields (a : Article) : List String :=
  [a.pub_date, a.title, a.source, a.source_channel, a.category,
   toString a.score, verdictStr a.verdict, a.level, a.summary, a.why_matters,
   String.intercalate (" | ") a.highlights, a.core_point, a.link]

/-- Stable insertion for a descending sort under a boolean total preorder
`le` (used for the CSV `(date, score)` tuple key). -/
def insertDescLe {α : Type} (le : α → α → Bool) (a : α) : List α → List α
  | [] => [a]
  | b :: bs => if le b a then a :: b :: bs else b :: insertDescLe le a bs

/-- Stable descending sort under a boolean total preorder. -/
def sortDescLe {α : Type} (le : α → α → Bool) : List α → List α
  | [] => []
  | a :: as => insertDescLe le a (sortDescLe le as)

/-- Python tuple comparison `(date, score) <= (date, score)`. -/
def dateScoreLe (a b : Article) : Bool :=
  lexLt a.pub_date.data b.pub_date.data ||
    (a.pub_date = b.pub_date && a.score ≤ b.score)

/-- `generate_csv`: full rebuild from the JSONL log — parseable lines only,
sorted by `(date, score)` descending, quoted under `QUOTE_ALL`, with a
UTF-8 BOM (`utf-8-sig`) and CRLF row terminators. -/
def generate_csv_str (log : List (Option Article)) : String :=
  let rows := sortDescLe dateScoreLe (log.filterMap id)
  let header := String.intercalate ","
    (["date", "title", "source", "channel", "category", "score", "verdict",
      "level", "summary", "why_matters", "highlights", "core_point",
      "link"].map csvField)
  "﻿" ++ header ++ "\r\n" ++
    String.join (rows.map (fun a =>
      String.intercalate "," ((csvRowFields a).map csvField) ++ "\r\n"))

/-! ### The publish run (`main`) -/

/-- One `briefing_data_{date}.json` cache document: four tiers of raw
records. -/
structure CacheDoc where
  tier1 : List RawArticle
  tier2 : List RawArticle
  tier3 : List RawArticle
  hn : List RawArticle
deriving DecidableEq

/-- The two channels read (`CHANNELS`). -/
def CHANNELS : List String := ["overseas", "wechat-ai"]

/-- `load_cache`: a missing cache file contributes zero records; otherwise
the four tiers are concatenated. -/
def tiersOf : Option CacheDoc → List RawArticle
  | none => []
  | some c => c.tier1 ++ c.tier2 ++ c.tier3 ++ c.hn

/-- One channel's eligible records: the rejection flag unset and score ≥ 60,
then normalized by `clean_article`. -/
def channelArticles (cache : String → Option CacheDoc) (ch : String) :
    List Article :=
  ((tiersOf (cache ch)).filter
      (fun a => ¬(a.rejected.getD false) ∧ 60 ≤ a.score.getD 0)).map
    (fun a => clean_article a ch)

/-- `all_articles` of `main`: both channels' eligible records, in channel
order.  `cache` is the per-channel view of the upstream cache for the run's
target date. -/
def eligibleArticles (cache : String → Option CacheDoc) : List Article :=
  CHANNELS.foldl (fun acc ch => acc ++ channelArticles cache ch) []

/-- The existing feed's item blocks; a missing feed file has none. -/
structure FeedDoc where
  lastBuild : String
  items : List Str
deriving DecidableEq

/-- Items of an optional feed file. -/
def feedItemsOf : Option FeedDoc → List Str
  | none => []
  | some f => f.items

/-- Generic lookup in a string-keyed association list (a directory of
files). -/
def lookupAssoc {β : Type} : List (String × β) → String → Option β
  | [], _ => none
  | (k, v) :: rest, s => if k = s then some v else lookupAssoc rest s

/-- Generic overwrite-or-create in a string-keyed association list. -/
def setAssoc {β : Type} : List (String × β) → String → β → List (String × β)
  | [], k, v => [(k, v)]
  | (k', v') :: rest, k, v =>
    if k' = k then (k', v) :: rest else (k', v') :: setAssoc rest k v

/-- The mutable file-system state touched by one publish run.  The two
generated folder READMEs are omitted: no claim mentions them. -/
structure HarvestFS where
  api : List (String × Snapshot)
  picks : Option Picks
  digest : List (String × String)
  stats : Option StatsDoc
  dataset : List (Option Article)
  csv : Option String
  feed : Option FeedDoc
  byCategory : Option CatIndex
  trending : Option TrendingDoc
deriving DecidableEq

/-- `main` for one target date: collect and filter both channels' records;
with zero eligible records the run returns after logging, touching nothing.
Otherwise every sink is written in order.  `now` is the wall-clock epoch day
(`datetime.now()`), which only the index builder consults.  A `none` result
models the uncaught `ValueError` that `generate_rss` raises for an
unparseable target date (in Python the sinks written before that point
persist; that partial state is not modelled, and no claim depends on it). -/
def runPublish (cache : String → Option CacheDoc) (dateStr : String)
    (now : Int) (fs : HarvestFS) : Option HarvestFS :=
  let arts := eligibleArticles cache
  if arts = [] then some fs
  else
    match parseDate dateStr with
    | none => none
    | some rd =>
      let api2 := setAssoc fs.api dateStr (generate_json_doc arts dateStr)
      let dataset2 := append_dataset fs.dataset arts
      let idx := update_indexes_docs dateStr
        (fun d => lookupAssoc api2 (formatDate d)) now
      some
        { api := api2
          picks := some (generate_daily_picks_doc arts dateStr)
          digest := setAssoc fs.digest dateStr (generate_markdown_str arts dateStr)
          stats := some ⟨update_source_stats ((fs.stats.map StatsDoc.sources).getD []) arts dateStr, dateStr⟩
          dataset := dataset2
          csv := some (generate_csv_str dataset2)
          feed := some ⟨dateStr, mergeFeed rd arts (feedItemsOf fs.feed)⟩
          byCategory := some idx.1
          trending := some idx.2 }

/-! ### Concrete instances used by witnesses and counterexamples -/

/-- A record used by the dataset scenarios (score 90). -/
def dupHi : Article :=
  { title := "Dup Title"
    link := "https://example.com/a"
    source := "SrcA"
    source_channel := "overseas"
    category := "AI"
    pub_date := "2026-02-25"
    summary := "first"
    core_point := ""
    highlights := []
    why_matters := ""
    score := 90
    level := "L1"
    verdict := .must_read }

/-- A second record sharing `dupHi`'s natural key but differing elsewhere
(score 80). -/
def dupLo : Article :=
  { dupHi with score := 80, link := "https://example.com/b", summary := "second" }

/-- A raw record with the given score and rejection flag. -/
def rawW (sc : Option Int) (rej : Option Bool) : RawArticle :=
  ⟨some "T", some "https://example.com/t", some "S", some "Cat",
   some "2026-02-25", some "sum", none, none, none, sc, none, none, none,
   none, none, rej⟩

/-- A cache holding only ineligible records: one rejected, one under the
score threshold. -/
def cacheW : String → Option CacheDoc := fun ch =>
  if ch = "overseas" then some ⟨[rawW (some 95) (some true)], [], [], [rawW (some 40) none]⟩
  else none

/-- A non-trivial file-system state. -/
def fsW : HarvestFS :=
  ⟨[("2026-02-24", ⟨"2026-02-24", 1, [(.neutral, 1)], [dupLo]⟩)], none,
   [("2026-02-24", "# old digest")], none, [some dupHi, none], none,
   some ⟨"2026-02-24", []⟩, none, none⟩

/-- A snapshot holding one high-scoring article. -/
def snapW : Snapshot := ⟨"2026-02-25", 1, [(.must_read, 1)], [dupHi]⟩

/-- A snapshot store with exactly one snapshot, at epoch day 100. -/
def apiW : Int → Option Snapshot := fun d => if d = 100 then some snapW else none

/-- A store agreeing with `apiW` on the 30-day window ending at day 100 but
differing outside it. -/
def apiW2 : Int → Option Snapshot := fun d =>
  if d = 100 then some snapW else if d = 500 then some snapW else none

/-- An existing per-source statistics entry. -/
def statW : SourceStat := ⟨2, 150, 1, 0, "2026-02-20", "2026-02-24", 75, 50, 0⟩

/-- An article whose title mentions the keyword `Agents`. -/
def artT1 : Article := { dupHi with title := "Agents rising fast" }

/-- A second article mentioning `Agents`. -/
def artT2 : Article := { dupLo with title := "Agents again" }

/-- A concrete run date. -/
def rdW : Date := ⟨2026, 2, 25⟩

/-- A feed item with no parseable `<link>` element (and no empty `pubDate`
marker). -/
def itemNoLink1 : Str := "<item>no link A</item>".data

/-- A second link-less feed item. -/
def itemNoLink2 : Str := "<item>no link B</item>".data

/-- A statistics map holding `statW` for the source of `dupHi`. -/
def statsMapW : StatsMap := [("SrcA", statW)]

/-! ## Lemmas -/

theorem insertDescBy_perm {α : Type} (key : α → Int) (a : α) (l : List α) :
    List.Perm (insertDescBy key a l) (a :: l) := by
  induction l with
  | nil => simp [insertDescBy]
  | cons b bs ih =>
    rw [insertDescBy]
    by_cases h : key b ≤ key a
    · rw [if_pos h]
    · rw [if_neg h]
      exact (ih.cons b).trans (List.Perm.swap a b bs)

theorem sortDescBy_perm {α : Type} (key : α → Int) (l : List α) :
    List.Perm (sortDescBy key l) l := by
  induction l with
  | nil => simp [sortDescBy]
  | cons a as ih =>
    exact (insertDescBy_perm key a (sortDescBy key as)).trans (ih.cons a)

theorem mem_sortDescBy {α : Type} {key : α → Int} {l : List α} {x : α} :
    x ∈ sortDescBy key l ↔ x ∈ l :=
  (sortDescBy_perm key l).mem_iff

theorem mem_insertDescBy {α : Type} {key : α → Int} {a x : α} {l : List α} :
    x ∈ insertDescBy key a l ↔ x = a ∨ x ∈ l := by
  rw [(insertDescBy_perm key a l).mem_iff, List.mem_cons]

theorem insertDescBy_pairwise {α : Type} (key : α → Int) (a : α) {l : List α}
    (h : l.Pairwise (fun x y => key y ≤ key x)) :
    (insertDescBy key a l).Pairwise (fun x y => key y ≤ key x) := by
  induction l with
  | nil => simp [insertDescBy]
  | cons b bs ih =>
    rw [insertDescBy]
    rcases List.pairwise_cons.mp h with ⟨hb, hbs⟩
    by_cases hba : key b ≤ key a
    · rw [if_pos hba]
      refine List.pairwise_cons.mpr ⟨?_, h⟩
      intro x hx
      rcases List.mem_cons.mp hx with rfl | hx
      · exact hba
      · exact le_trans (hb x hx) hba
    · rw [if_neg hba]
      refine List.pairwise_cons.mpr ⟨?_, ih hbs⟩
      intro x hx
      rcases mem_insertDescBy.mp hx with rfl | hx
      · omega
      · exact hb x hx

theorem sortDescBy_pairwise {α : Type} (key : α → Int) (l : List α) :
    (sortDescBy key l).Pairwise (fun x y => key y ≤ key x) := by
  induction l with
  | nil => simp [sortDescBy]
  | cons a as ih => exact insertDescBy_pairwise key a ih

theorem sortByScoreDesc_perm (l : List Article) :
    List.Perm (sortByScoreDesc l) l :=
  sortDescBy_perm _ l

theorem filterMap_id_map_some (xs : List Article) :
    (xs.map some).filterMap id = xs := by
  induction xs with
  | nil => rfl
  | cons a as ih => simp [ih]

theorem datasetKeys_append_map_some (log : List (Option Article))
    (xs : List Article) :
    datasetKeys (log ++ xs.map some) = datasetKeys log ++ xs.map entryKey := by
  unfold datasetKeys
  rw [List.filterMap_append, filterMap_id_map_some, List.map_append]

theorem keyCount_append (k : String × String) (log : List (Option Article))
    (xs : List Article) :
    keyCount k (log ++ xs.map some) =
      keyCount k log + xs.countP (fun a => entryKey a = k) := by
  unfold keyCount
  rw [List.filterMap_append, List.countP_append, filterMap_id_map_some]

/-- The appended block of one `append_dataset` call. -/
theorem append_dataset_eq (log : List (Option Article)) (batch : List Article) :
    append_dataset log batch =
      log ++ ((sortByScoreDesc batch).filter
        (fun a => entryKey a ∉ datasetKeys log)).map some := rfl

/-! ## Claims -/

/-- Claim C1: the verdict classifier is a pure total function of
`(score, novelty, depth, noise, credibility)` with missing dimensions
defaulting to `0`; it returns exactly one of the five verdicts by
first-matching-rule order (`score ≥ 85` → must_read; else `75 ≤ score ≤ 84`
with novelty ≥ 2 or depth ≥ 2 → worth_reading; else `60 ≤ score ≤ 69` with
noise ≤ 1 → noise; else `score ≥ 70`, novelty = 0, credibility ≤ 1 →
overhyped; else neutral); in particular score 85 with novelty 0 is
must_read because rule 1 fires first. -/
theorem claim_C1 :
    (∀ a : RawArticle, assign_verdict a =
        classify (a.score.getD 0) (a.novelty.getD 0) (a.depth.getD 0)
          (a.noise.getD 0) (a.credibility.getD 0)) ∧
    (∀ s n d no c : Int, classify s n d no c ∈ VERDICT_ORDER) ∧
    (∀ s n d no c : Int, 85 ≤ s → classify s n d no c = .must_read) ∧
    (∀ s n d no c : Int, 75 ≤ s → s ≤ 84 → 2 ≤ n ∨ 2 ≤ d →
      classify s n d no c = .worth_reading) ∧
    (∀ s n d no c : Int, 60 ≤ s → s ≤ 69 → no ≤ 1 →
      classify s n d no c = .noise) ∧
    (∀ s n d no c : Int, s < 85 → ¬(75 ≤ s ∧ s ≤ 84 ∧ (2 ≤ n ∨ 2 ≤ d)) →
      70 ≤ s → n = 0 → c ≤ 1 → classify s n d no c = .overhyped) ∧
    (∀ s n d no c : Int, ¬(85 ≤ s) → ¬(75 ≤ s ∧ s ≤ 84 ∧ (2 ≤ n ∨ 2 ≤ d)) →
      ¬(60 ≤ s ∧ s ≤ 69 ∧ no ≤ 1) → ¬(70 ≤ s ∧ n = 0 ∧ c ≤ 1) →
      classify s n d no c = .neutral) ∧
    (∀ d no c : Int, classify 85 0 d no c = .must_read) := by
  refine ⟨fun a => rfl, ?_, ?_, ?_, ?_, ?_, ?_, ?_⟩ <;>
    intros <;> simp only [classify, VERDICT_ORDER] <;>
    split_ifs <;> first | simp | (exfalso; omega)

/-- Witness for C1 at the tie-break input of the claim. -/
theorem claim_C1_witness : classify 85 0 0 0 0 = Verdict.must_read :=
  claim_C1.2.2.1 85 0 0 0 0 (by norm_num)

/-- Counterexample to C2 as stated: two batch records sharing the natural
key `(pub_date, title)` but differing in score, appended in one call against
a log not containing that key, both end up in the log — the key occurs
twice, not once (the script never adds freshly appended keys to its
`existing` set). -/
theorem claim_C2_counterexample :
    entryKey dupLo = entryKey dupHi ∧ dupLo ≠ dupHi ∧
      append_dataset [] [dupHi, dupLo] = [some dupHi, some dupLo] ∧
      keyCount (entryKey dupHi) (append_dataset [] [dupHi, dupLo]) = 2 := by
  refine ⟨rfl, by decide, by rfl, by rfl⟩

/-- Claim C2, amended: one `append_dataset` call deduplicates only against
the keys already present in the log before the call — a batch record is
skipped exactly when its key pre-exists, so the number of entries with key
`k` grows by the full number of batch records keyed `k` whenever `k` is
absent from the log (and by zero otherwise); key-uniqueness of the whole log
is preserved provided the batch itself has pairwise-distinct keys. -/
theorem claim_C2 (log : List (Option Article)) (batch : List Article)
    (k : String × String) :
    (keyCount k (append_dataset log batch) =
      keyCount k log +
        (if k ∈ datasetKeys log then 0
         else batch.countP (fun a => entryKey a = k))) ∧
    ((datasetKeys log).Nodup → (batch.map entryKey).Nodup →
      (datasetKeys (append_dataset log batch)).Nodup) := by
  constructor
  · rw [append_dataset_eq, keyCount_append]
    congr 1
    by_cases hk : k ∈ datasetKeys log
    · rw [if_pos hk]
      rw [List.countP_eq_zero]
      intro a ha
      rcases List.mem_filter.mp ha with ⟨-, hpred⟩
      simp only [decide_eq_true_eq] at hpred ⊢
      intro rfl_eq
      exact hpred (rfl_eq ▸ hk)
    · rw [if_neg hk, List.countP_filter]
      have hcong : ∀ a ∈ sortByScoreDesc batch,
          ((decide (entryKey a = k) && decide (entryKey a ∉ datasetKeys log)) = true ↔
            decide (entryKey a = k) = true) := by
        intro a _
        by_cases he : entryKey a = k
        · simp [he, hk]
        · simp [he]
      rw [List.countP_congr hcong]
      exact (sortByScoreDesc_perm batch).countP_eq _
  · intro hlog hbatch
    rw [append_dataset_eq, datasetKeys_append_map_some, List.nodup_append]
    refine ⟨hlog, ?_, ?_⟩
    · have hperm : List.Perm ((sortByScoreDesc batch).map entryKey)
          (batch.map entryKey) :=
        (sortByScoreDesc_perm batch).map entryKey
      have hsorted : ((sortByScoreDesc batch).map entryKey).Nodup :=
        hperm.nodup_iff.mpr hbatch
      exact hsorted.sublist
        ((List.filter_sublist (sortByScoreDesc batch)).map entryKey)
    · intro x hx hx'
      rcases List.mem_map.mp hx' with ⟨a, ha, rfl⟩
      rcases List.mem_filter.mp ha with ⟨-, hpred⟩
      simp only [decide_eq_true_eq] at hpred
      exact hpred hx

/-- Witness for C2 (amended): the count law and preservation of uniqueness
at a concrete log and a key-distinct batch. -/
theorem claim_C2_witness :
    keyCount (entryKey dupHi) (append_dataset [some dupHi] [dupLo]) =
        keyCount (entryKey dupHi) [some dupHi] +
          (if entryKey dupHi ∈ datasetKeys [some dupHi] then 0
           else [dupLo].countP (fun a => entryKey a = entryKey dupHi)) ∧
      (datasetKeys (append_dataset [some dupHi] [dupLo])).Nodup :=
  ⟨(claim_C2 [some dupHi] [dupLo] (entryKey dupHi)).1,
   (claim_C2 [some dupHi] [dupLo] (entryKey dupHi)).2 (by decide) (by decide)⟩

/-- Claim C4: appending the same batch a second time writes zero new lines
and leaves the log identical to the state after the first call, for every
batch and every pre-existing log. -/
theorem claim_C4 (log : List (Option Article)) (batch : List Article) :
    append_dataset (append_dataset log batch) batch = append_dataset log batch ∧
      appendNewCount (append_dataset log batch) batch = 0 := by
  have hnil : (sortByScoreDesc batch).filter
      (fun a => entryKey a ∉ datasetKeys (append_dataset log batch)) = [] := by
    rw [List.filter_eq_nil_iff]
    intro a ha
    simp only [decide_eq_true_eq, not_not]
    rw [append_dataset_eq, datasetKeys_append_map_some]
    by_cases hk : entryKey a ∈ datasetKeys log
    · exact List.mem_append.mpr (Or.inl hk)
    · refine List.mem_append.mpr (Or.inr ?_)
      exact List.mem_map.mpr ⟨a, List.mem_filter.mpr ⟨ha, by simpa using hk⟩, rfl⟩
  constructor
  · conv_lhs => rw [append_dataset_eq, hnil]
    simp
  · unfold appendNewCount
    rw [hnil]
    rfl

/-- Claim C9: with zero eligible records (rejection flag unset and score
≥ 60) for the target date, the run short-circuits and every sink — snapshot,
picks, markdown, stats, dataset, CSV, feed and indexes — is left unchanged. -/
theorem claim_C9 (cache : String → Option CacheDoc) (dateStr : String)
    (now : Int) (fs : HarvestFS) (h : eligibleArticles cache = []) :
    runPublish cache dateStr now fs = some fs := by
  unfold runPublish
  rw [h]
  rfl

/-- Witness for C9: a cache holding one rejected record and one record under
the score threshold leaves a non-trivial state untouched. -/
theorem claim_C9_witness : runPublish cacheW ("2026-02-25") 20509 fsW = some fsW :=
  claim_C9 cacheW ("2026-02-25") 20509 fsW (by decide)

theorem load_recent_data_succ (api : Int → Option Snapshot) (now : Int) (n : Nat) :
    load_recent_data api now (n + 1) =
      load_recent_data api now n ++
        ((api (now - (n : Int))).map Snapshot.articles).getD [] := by
  unfold load_recent_data
  rw [List.range_succ, List.foldl_append]
  rfl

theorem load_recent_data_congr (api api' : Int → Option Snapshot) (now : Int)
    (days : Nat)
    (h : ∀ i : Nat, i < days → api (now - (i : Int)) = api' (now - (i : Int))) :
    load_recent_data api now days = load_recent_data api' now days := by
  induction days with
  | zero => rfl
  | succ n ih =>
    rw [load_recent_data_succ, load_recent_data_succ,
      ih (fun i hi => h i (by omega)), h n (by omega)]

theorem addToGroup_forall {P : CatEntry → Prop} (cat : String) (e : CatEntry)
    (he : P e) :
    ∀ acc : List (String × List CatEntry),
      (∀ c es, (c, es) ∈ acc → ∀ x ∈ es, P x) →
      ∀ c es, (c, es) ∈ addToGroup acc cat e → ∀ x ∈ es, P x := by
  intro acc
  induction acc with
  | nil =>
    intro _ c es hmem x hx
    simp only [addToGroup, List.mem_singleton, Prod.mk.injEq] at hmem
    obtain ⟨rfl, rfl⟩ := hmem
    rcases List.mem_singleton.mp hx with rfl
    exact he
  | cons p rest ih =>
    obtain ⟨c0, es0⟩ := p
    intro hacc c es hmem x hx
    rw [addToGroup] at hmem
    by_cases hc : c0 = cat
    · rw [if_pos hc] at hmem
      rcases List.mem_cons.mp hmem with heq | hmem'
      · rw [Prod.mk.injEq] at heq
        obtain ⟨rfl, rfl⟩ := heq
        rcases List.mem_append.mp hx with hx' | hx'
        · exact hacc c es0 (List.mem_cons_self _ _) x hx'
        · rcases List.mem_singleton.mp hx' with rfl
          exact he
      · exact hacc c es (List.mem_cons_of_mem _ hmem') x hx
    · rw [if_neg hc] at hmem
      rcases List.mem_cons.mp hmem with heq | hmem'
      · rw [Prod.mk.injEq] at heq
        obtain ⟨rfl, rfl⟩ := heq
        exact hacc c es (List.mem_cons_self _ _) x hx
      · exact ih (fun c1 es1 h1 => hacc c1 es1 (List.mem_cons_of_mem _ h1))
          c es hmem' x hx

theorem groupByCat_forall_aux :
    ∀ (arts : List Article) (acc : List (String × List CatEntry)),
      (∀ c es, (c, es) ∈ acc → ∀ x ∈ es, (75 : Int) ≤ x.score) →
      ∀ c es,
        (c, es) ∈ arts.foldl
          (fun acc a =>
            if a.score < 75 then acc else addToGroup acc a.category (catEntryOf a))
          acc →
        ∀ x ∈ es, (75 : Int) ≤ x.score := by
  intro arts
  induction arts with
  | nil => intro acc hacc; simpa using hacc
  | cons a as ih =>
    intro acc hacc
    rw [List.foldl_cons]
    by_cases ha : a.score < 75
    · rw [if_pos ha]
      exact ih acc hacc
    · rw [if_neg ha]
      exact ih _ (addToGroup_forall _ _ (by simp only [catEntryOf]; omega) acc hacc)

theorem groupByCat_score (arts : List Article) :
    ∀ c es, (c, es) ∈ groupByCat arts → ∀ x ∈ es, (75 : Int) ≤ x.score :=
  groupByCat_forall_aux arts [] (by simp)

/-- Counterexample to C3 as stated: `load_recent_data` windows on
`datetime.now()`, not on the run's `--date` target, so two runs with the
same target date over the same snapshot store but different wall-clock days
produce different category-index contents. -/
theorem claim_C3_counterexample :
    (update_indexes_docs ("2026-03-01") apiW 100).1 ≠
      (update_indexes_docs ("2026-03-01") apiW 200).1 := by decide

/-- Claim C3, amended: the category index is computed from exactly the
trailing 30-day window of snapshots ending at the wall-clock run day
(`datetime.now()`), inclusive, filtered to score ≥ 75 — so the whole index
output (category and trending alike) is unchanged under any modification of
snapshots outside that window, and two runs with the same wall-clock day
over the same persisted snapshots produce identical index contents. -/
theorem claim_C3 (api api' : Int → Option Snapshot) (now : Int) (u : String)
    (h : ∀ d : Int, now - 29 ≤ d → d ≤ now → api d = api' d) :
    update_indexes_docs u api now = update_indexes_docs u api' now ∧
      ∀ cat entries,
        (cat, entries) ∈ (update_indexes_docs u api now).1.categories →
        ∀ e ∈ entries, (75 : Int) ≤ e.score := by
  have h30 : load_recent_data api now 30 = load_recent_data api' now 30 :=
    load_recent_data_congr _ _ _ _ (fun i hi => h _ (by omega) (by omega))
  have h7 : load_recent_data api now 7 = load_recent_data api' now 7 :=
    load_recent_data_congr _ _ _ _ (fun i hi => h _ (by omega) (by omega))
  constructor
  · unfold update_indexes_docs
    rw [h30, h7]
  · intro cat entries hmem e he
    simp only [update_indexes_docs] at hmem
    rcases List.mem_map.mp hmem with ⟨p, hp, heq⟩
    rw [Prod.mk.injEq] at heq
    obtain ⟨h1, h2⟩ := heq
    subst h1
    exact groupByCat_score _ _ _ hp e (mem_sortDescBy.mp (h2 ▸ he))

/-- Witness for C3 (amended): two stores that agree on the window ending at
day 100 give identical indexes, although they differ at day 500. -/
theorem claim_C3_witness :
    update_indexes_docs ("2026-03-01") apiW 100 =
      update_indexes_docs ("2026-03-01") apiW2 100 :=
  (claim_C3 apiW apiW2 100 ("2026-03-01") (fun d h1 h2 => by
    have hd5 : d ≠ 500 := by omega
    by_cases hd : d = 100
    · simp [apiW, apiW2, hd]
    · simp [apiW, apiW2, hd, hd5])).1

theorem lexLe_refl (s : Str) : lexLe s s = true := by simp [lexLe]

theorem lookupStat_setStat_same (m : StatsMap) (k : String) (v : SourceStat) :
    lookupStat (setStat m k v) k = some v := by
  induction m with
  | nil => simp [setStat, lookupStat]
  | cons p rest ih =>
    obtain ⟨k', v'⟩ := p
    rw [setStat]
    by_cases h : k' = k
    · rw [if_pos h, lookupStat, if_pos h]
    · rw [if_neg h, lookupStat, if_neg h]
      exact ih

theorem lookupStat_setStat_ne (m : StatsMap) (k : String) (v : SourceStat)
    (s : String) (h : k ≠ s) :
    lookupStat (setStat m k v) s = lookupStat m s := by
  induction m with
  | nil => simp [setStat, lookupStat, h]
  | cons p rest ih =>
    obtain ⟨k', v'⟩ := p
    by_cases hk : k' = k
    · subst hk
      rw [setStat, if_pos rfl, lookupStat, lookupStat, if_neg h, if_neg h]
    · rw [setStat, if_neg hk, lookupStat, lookupStat]
      by_cases hs : k' = s
      · rw [if_pos hs, if_pos hs]
      · rw [if_neg hs, if_neg hs]
        exact ih

theorem mem_addKey {α : Type} [DecidableEq α] {acc : List α} {y x : α} :
    x ∈ addKey acc y ↔ x ∈ acc ∨ x = y := by
  unfold addKey
  by_cases h : y ∈ acc
  · rw [if_pos h]
    constructor
    · exact Or.inl
    · rintro (hx | rfl)
      · exact hx
      · exact h
  · rw [if_neg h]
    simp

theorem nodup_addKey {α : Type} [DecidableEq α] {acc : List α} (h : acc.Nodup)
    (y : α) : (addKey acc y).Nodup := by
  unfold addKey
  by_cases hy : y ∈ acc
  · rwa [if_pos hy]
  · rw [if_neg hy]
    refine List.nodup_append.mpr ⟨h, by simp, ?_⟩
    intro a ha hm
    rw [List.mem_singleton] at hm
    exact hy (hm ▸ ha)

theorem mem_todaySources_aux (s : String) :
    ∀ (l : List Article) (acc : List String),
      s ∈ l.foldl (fun acc a => addKey acc a.source) acc ↔
        s ∈ acc ∨ s ∈ l.map (fun a => a.source) := by
  intro l
  induction l with
  | nil => simp
  | cons a as ih =>
    intro acc
    rw [List.foldl_cons, ih, mem_addKey]
    simp only [List.map_cons, List.mem_cons]
    tauto

theorem mem_todaySources {arts : List Article} {s : String} :
    s ∈ todaySources arts ↔ s ∈ arts.map (fun a => a.source) := by
  simpa using mem_todaySources_aux s arts []

theorem todaySources_nodup (arts : List Article) : (todaySources arts).Nodup := by
  have aux : ∀ (l : List Article) (acc : List String), acc.Nodup →
      (l.foldl (fun acc a => addKey acc a.source) acc).Nodup := by
    intro l
    induction l with
    | nil => intro acc h; simpa using h
    | cons a as ih =>
      intro acc h
      rw [List.foldl_cons]
      exact ih _ (nodup_addKey h _)
  exact aux arts [] (by simp)

theorem update_fold_lookup_ne (arts : List Article) (date : String) :
    ∀ (srcs : List String) (acc : StatsMap) (src : String), src ∉ srcs →
      lookupStat
          (srcs.foldl
            (fun acc src' =>
              setStat acc src'
                (bumpStat date (arts.filter (fun a => a.source = src'))
                  ((lookupStat acc src').getD (initStat date))))
            acc)
          src =
        lookupStat acc src := by
  intro srcs
  induction srcs with
  | nil => intro acc src _; rfl
  | cons s0 rest ih =>
    intro acc src hmem
    rw [List.foldl_cons, ih _ _ (fun hh => hmem (List.mem_cons_of_mem _ hh))]
    exact lookupStat_setStat_ne _ _ _ _
      (fun hh => hmem (hh ▸ List.mem_cons_self s0 rest))

/-- Claim C7: the cumulative source-stats merge is monotone — for every
source already tracked, one merge of a day's batch (all scores ≥ 60) never
decreases `articles_count`, `total_score`, `must_read_count` or
`noise_count`; `last_seen` is non-decreasing under date-ordered calls; no
entry is removed; and a source absent from the batch is left unchanged. -/
theorem claim_C7 (m : StatsMap) (arts : List Article) (date src : String)
    (e : SourceStat) (h60 : ∀ a ∈ arts, (60 : Int) ≤ a.score)
    (he : lookupStat m src = some e) :
    ∃ e', lookupStat (update_source_stats m arts date) src = some e' ∧
      e.articles_count ≤ e'.articles_count ∧
      e.total_score ≤ e'.total_score ∧
      e.must_read_count ≤ e'.must_read_count ∧
      e.noise_count ≤ e'.noise_count ∧
      (lexLe e.last_seen.data date.data = true →
        lexLe e.last_seen.data e'.last_seen.data = true) ∧
      (src ∉ arts.map (fun a => a.source) → e' = e) := by
  by_cases hs : src ∈ todaySources arts
  · obtain ⟨l1, l2, hsplit⟩ := List.append_of_mem hs
    have hnd := todaySources_nodup arts
    rw [hsplit] at hnd
    rcases List.nodup_append.mp hnd with ⟨-, hnd2, hdis⟩
    have h1 : src ∉ l1 := fun hx => hdis hx (List.mem_cons_self _ _)
    have h2 : src ∉ l2 := (List.nodup_cons.mp hnd2).1
    have hsum : 0 ≤ ((arts.filter (fun a => a.source = src)).map
        (fun a => a.score)).sum := by
      refine List.sum_nonneg ?_
      intro x hx
      rcases List.mem_map.mp hx with ⟨a, ha, rfl⟩
      have := h60 a (List.mem_filter.mp ha).1
      omega
    refine ⟨bumpStat date (arts.filter (fun a => a.source = src)) e,
      ?_, ?_, ?_, ?_, ?_, ?_, ?_⟩
    · unfold update_source_stats
      rw [hsplit, List.foldl_append, List.foldl_cons,
        update_fold_lookup_ne arts date l2 _ src h2,
        update_fold_lookup_ne arts date l1 m src h1, he, Option.getD_some,
        lookupStat_setStat_same]
    · simp [bumpStat]
    · simp only [bumpStat]
      omega
    · simp [bumpStat]
    · simp [bumpStat]
    · intro hle
      simpa [bumpStat] using hle
    · intro habs
      exact absurd (mem_todaySources.mp hs) habs
  · refine ⟨e, ?_, le_refl _, le_refl _, le_refl _, le_refl _,
      fun _ => lexLe_refl _, fun _ => rfl⟩
    unfold update_source_stats
    rw [update_fold_lookup_ne arts date _ m src hs, he]

/-- Witness for C7: merging one must-read article of source `SrcA` into a
map where `SrcA` has counts `(2, 150, 1, 0)` yields counts `(3, 240, 2, 0)`
and `last_seen` set to the merge date. -/
theorem claim_C7_witness :
    (lookupStat (update_source_stats statsMapW [dupHi] ("2026-02-25")) ("SrcA")).map
        (fun e => (e.articles_count, e.total_score, e.must_read_count,
          e.noise_count, e.last_seen)) =
      some (3, 240, 2, 0, "2026-02-25") := by
  obtain ⟨e', hl, -, -, -, -, -, -⟩ :=
    claim_C7 statsMapW [dupHi] ("2026-02-25") ("SrcA") statW (by decide) (by decide)
  decide

theorem foldl_preserve {α β : Type} (P : β → Prop) (f : β → α → β)
    (hf : ∀ acc x, P acc → P (f acc x)) :
    ∀ (l : List α) (acc : β), P acc → P (l.foldl f acc) := by
  intro l
  induction l with
  | nil => intro acc h; simpa using h
  | cons a as ih =>
    intro acc h
    rw [List.foldl_cons]
    exact ih _ (hf acc a h)

theorem bumpKey_fst {κ : Type} [DecidableEq κ] (m : List (κ × Nat)) (k : κ) :
    (bumpKey m k).map Prod.fst =
      if k ∈ m.map Prod.fst then m.map Prod.fst else m.map Prod.fst ++ [k] := by
  induction m with
  | nil => simp [bumpKey]
  | cons p rest ih =>
    obtain ⟨k0, n0⟩ := p
    rw [bumpKey]
    by_cases hk : k0 = k
    · subst hk
      simp
    · rw [if_neg hk]
      simp only [List.map_cons, ih]
      have hkk : (k ∈ k0 :: rest.map Prod.fst) ↔ k ∈ rest.map Prod.fst := by
        constructor
        · intro h
          rcases List.mem_cons.mp h with h1 | h1
          · exact absurd h1.symm hk
          · exact h1
        · exact List.mem_cons_of_mem _
      by_cases hm : k ∈ rest.map Prod.fst
      · simp [hm, hkk.mpr hm]
      · have : ¬ k ∈ k0 :: rest.map Prod.fst := fun h => hm (hkk.mp h)
        simp only [if_neg hm, if_neg this, List.cons_append]

theorem lookupCount_bumpKey_same {κ : Type} [DecidableEq κ] (m : List (κ × Nat))
    (k : κ) : lookupCount (bumpKey m k) k = lookupCount m k + 1 := by
  induction m with
  | nil => simp [bumpKey, lookupCount]
  | cons p rest ih =>
    obtain ⟨k0, n0⟩ := p
    rw [bumpKey]
    by_cases hk : k0 = k
    · rw [if_pos hk, lookupCount, if_pos hk, lookupCount, if_pos hk]
    · rw [if_neg hk, lookupCount, if_neg hk, lookupCount, if_neg hk]
      exact ih

theorem lookupCount_bumpKey_ne {κ : Type} [DecidableEq κ] (m : List (κ × Nat))
    (k' k : κ) (h : k' ≠ k) :
    lookupCount (bumpKey m k') k = lookupCount m k := by
  induction m with
  | nil => simp [bumpKey, lookupCount, h]
  | cons p rest ih =>
    obtain ⟨k0, n0⟩ := p
    rw [bumpKey]
    by_cases hk : k0 = k'
    · subst hk
      rw [if_pos rfl, lookupCount, lookupCount, if_neg h, if_neg h]
    · rw [if_neg hk, lookupCount, lookupCount]
      by_cases hs : k0 = k
      · rw [if_pos hs, if_pos hs]
      · rw [if_neg hs, if_neg hs]
        exact ih

theorem lookupCount_foldl_bumpKey {κ : Type} [DecidableEq κ] (k : κ) :
    ∀ (ws : List κ), ws.Nodup → ∀ m : List (κ × Nat),
      lookupCount (ws.foldl bumpKey m) k =
        lookupCount m k + (if k ∈ ws then 1 else 0) := by
  intro ws
  induction ws with
  | nil => intro _ m; simp
  | cons w ws' ih =>
    intro hnd m
    rcases List.nodup_cons.mp hnd with ⟨hw, hnd'⟩
    rw [List.foldl_cons, ih hnd']
    by_cases hk : k = w
    · subst hk
      rw [lookupCount_bumpKey_same]
      simp [hw]
    · rw [lookupCount_bumpKey_ne _ _ _ (fun h => hk h.symm)]
      by_cases hm : k ∈ ws'
      · simp [hm, hk]
      · simp [hm, hk]

theorem keys_nodup_foldl_bumpKey {κ : Type} [DecidableEq κ] (ws : List κ)
    (m : List (κ × Nat)) (h : (m.map Prod.fst).Nodup) :
    ((ws.foldl bumpKey m).map Prod.fst).Nodup := by
  refine foldl_preserve (fun m => (List.map Prod.fst m).Nodup) bumpKey ?_ ws m h
  intro acc x hacc
  rw [bumpKey_fst]
  by_cases hx : x ∈ acc.map Prod.fst
  · rwa [if_pos hx]
  · rw [if_neg hx]
    refine List.nodup_append.mpr ⟨hacc, by simp, ?_⟩
    intro a ha hm
    rw [List.mem_singleton] at hm
    exact hx (hm ▸ ha)

theorem mem_assoc_lookupCount {κ : Type} [DecidableEq κ] :
    ∀ m : List (κ × Nat), (m.map Prod.fst).Nodup →
      ∀ p ∈ m, lookupCount m p.1 = p.2 := by
  intro m
  induction m with
  | nil => intro _ p hp; cases hp
  | cons q rest ih =>
    obtain ⟨k0, n0⟩ := q
    intro hnd p hp
    rw [List.map_cons] at hnd
    rcases List.nodup_cons.mp hnd with ⟨hk0, hnd'⟩
    rcases List.mem_cons.mp hp with rfl | hp'
    · rw [lookupCount, if_pos rfl]
    · rw [lookupCount]
      by_cases hk : k0 = p.1
      · rw [hk] at hk0
        exact absurd (List.mem_map_of_mem Prod.fst hp') hk0
      · rw [if_neg hk]
        exact ih hnd' p hp'

theorem extract_keywords_nodup (t : String) : (extract_keywords t).Nodup := by
  unfold extract_keywords
  refine foldl_preserve (fun l : List String => l.Nodup) _ ?_ CN_KNOWN_TERMS _
    (foldl_preserve (fun l : List String => l.Nodup) _ ?_ (engTokens t.data) [] (by simp))
  · intro acc x h
    dsimp only
    split
    · exact nodup_addKey h _
    · exact h
  · intro acc x h
    dsimp only
    split
    · exact nodup_addKey h _
    · exact h

theorem keywordCounts_value_aux (kw : String) :
    ∀ (arts : List Article) (m : List (String × Nat)),
      lookupCount (arts.foldl
          (fun m a => (extract_keywords a.title).foldl bumpKey m) m) kw =
        lookupCount m kw +
          arts.countP (fun a => kw ∈ extract_keywords a.title) := by
  intro arts
  induction arts with
  | nil => intro m; simp
  | cons a as ih =>
    intro m
    rw [List.foldl_cons, ih,
      lookupCount_foldl_bumpKey kw (extract_keywords a.title)
        (extract_keywords_nodup a.title) m, List.countP_cons]
    by_cases hm : kw ∈ extract_keywords a.title
    · simp [hm]
      omega
    · simp [hm]

theorem keywordCounts_value (arts : List Article) (kw : String) :
    lookupCount (keywordCounts arts) kw =
      arts.countP (fun a => kw ∈ extract_keywords a.title) := by
  have := keywordCounts_value_aux kw arts []
  simpa [keywordCounts, lookupCount] using this

theorem keywordCounts_keys_nodup (arts : List Article) :
    ((keywordCounts arts).map Prod.fst).Nodup := by
  unfold keywordCounts
  refine foldl_preserve (fun m : List (String × Nat) => (m.map Prod.fst).Nodup)
    _ ?_ arts [] (by simp)
  intro acc a h
  exact keys_nodup_foldl_bumpKey _ _ h

/-- Claim C8: for every window of articles, the emitted trending list has at
most 20 entries, is sorted by descending count, and lists only keywords
whose occurrence count across the window (number of window articles whose
title yields the keyword) is at least 2 — and each entry's recorded count is
exactly that occurrence count. -/
theorem claim_C8 (arts : List Article) :
    (trendingList arts).length ≤ 20 ∧
      (trendingList arts).Pairwise (fun p q => q.2 ≤ p.2) ∧
      ∀ p ∈ trendingList arts,
        2 ≤ p.2 ∧ p.2 = arts.countP (fun a => p.1 ∈ extract_keywords a.title) := by
  refine ⟨?_, ?_, ?_⟩
  · exact List.length_take_le _ _
  · have h1 := sortDescBy_pairwise (fun p : String × Nat => (p.2 : Int))
      (keywordCounts arts)
    have h2 := h1.filter (fun p => decide (2 ≤ p.2))
    have h3 := List.Pairwise.sublist (List.take_sublist 20 _) h2
    exact h3.imp (fun h => by exact_mod_cast h)
  · intro p hp
    have hp1 := List.mem_of_mem_take hp
    rcases List.mem_filter.mp hp1 with ⟨hmem, hcond⟩
    refine ⟨by simpa using hcond, ?_⟩
    have hmem2 : p ∈ keywordCounts arts := mem_sortDescBy.mp hmem
    have hval := mem_assoc_lookupCount (keywordCounts arts)
      (keywordCounts_keys_nodup arts) p hmem2
    rw [← hval, keywordCounts_value]

/-- Witness for C8: the bound and ordering at a concrete two-article
window in which `Agents` occurs twice. -/
theorem claim_C8_witness :
    (trendingList [artT1, artT2]).length ≤ 20 ∧
      (trendingList [artT1, artT2]).Pairwise (fun p q => q.2 ≤ p.2) :=
  ⟨(claim_C8 [artT1, artT2]).1, (claim_C8 [artT1, artT2]).2.1⟩

/-! ### String-scanning lemmas for the feed merge -/

theorem isPrefixB_nil_iff (q : Str) : isPrefixB q [] = true ↔ q = [] := by
  cases q <;> simp [isPrefixB]

theorem isPrefixB_append_self (q t : Str) : isPrefixB q (q ++ t) = true := by
  induction q with
  | nil => simp [isPrefixB]
  | cons c cs ih => simpa [isPrefixB] using ih

theorem isPrefixB_head_ne {p0 c : Char} {ps cs : Str} (h : c ≠ p0) :
    isPrefixB (p0 :: ps) (c :: cs) = false := by
  simp only [isPrefixB, ite_eq_right_iff]
  intro hh
  exact absurd hh.symm h

theorem containsSub_head_append (p0 : Char) (ps : Str) (seg : Str)
    (hseg : ∀ c ∈ seg, c ≠ p0) (T : Str) :
    containsSub (p0 :: ps) (seg ++ T) = containsSub (p0 :: ps) T := by
  induction seg with
  | nil => simp
  | cons c seg' ih =>
    rw [List.cons_append, containsSub,
      isPrefixB_head_ne (hseg c (List.mem_cons_self c seg')), Bool.false_or]
    exact ih (fun x hx => hseg x (List.mem_cons_of_mem _ hx))

theorem splitFirst_cons_neg {pat : Str} {c : Char} {cs : Str}
    (h : isPrefixB pat (c :: cs) = false) :
    splitFirst pat (c :: cs) = (splitFirst pat cs).map (fun p => (c :: p.1, p.2)) := by
  simp [splitFirst, h]

theorem splitFirst_head_append (p0 : Char) (ps : Str) (seg : Str)
    (hseg : ∀ c ∈ seg, c ≠ p0) (T : Str) :
    splitFirst (p0 :: ps) (seg ++ T) =
      (splitFirst (p0 :: ps) T).map (fun p => (seg ++ p.1, p.2)) := by
  induction seg with
  | nil =>
    cases h : splitFirst (p0 :: ps) T <;> simp [h]
  | cons c seg' ih =>
    rw [List.cons_append,
      splitFirst_cons_neg (isPrefixB_head_ne (hseg c (List.mem_cons_self c seg'))),
      ih (fun x hx => hseg x (List.mem_cons_of_mem _ hx))]
    cases h : splitFirst (p0 :: ps) T <;> simp [h]

theorem splitFirst_startsWith {pat s : Str} (h : isPrefixB pat s = true) :
    splitFirst pat s = some ([], s.drop pat.length) := by
  cases s <;> simp [splitFirst, h]

theorem replaceAll_cons_neg {pat repl : Str} {c : Char} {cs : Str}
    (h : ¬(pat ≠ [] ∧ isPrefixB pat (c :: cs) = true)) :
    replaceAll pat repl (c :: cs) = c :: replaceAll pat repl cs := by
  rw [replaceAll, if_neg h]

theorem replaceAll_cons_pos {pat repl : Str} {c : Char} {cs : Str}
    (h1 : pat ≠ []) (h2 : isPrefixB pat (c :: cs) = true) :
    replaceAll pat repl (c :: cs) =
      repl ++ replaceAll pat repl (cs.drop (pat.length - 1)) := by
  rw [replaceAll, if_pos ⟨h1, h2⟩]

theorem replaceAll_head_ne_append (p0 : Char) (ps repl : Str) (seg : Str)
    (hseg : ∀ c ∈ seg, c ≠ p0) (T : Str) :
    replaceAll (p0 :: ps) repl (seg ++ T) = seg ++ replaceAll (p0 :: ps) repl T := by
  induction seg with
  | nil => simp
  | cons c seg' ih =>
    rw [List.cons_append,
      replaceAll_cons_neg
        (by
          rintro ⟨-, hpre⟩
          rw [isPrefixB_head_ne (hseg c (List.mem_cons_self c seg'))] at hpre
          cases hpre),
      ih (fun x hx => hseg x (List.mem_cons_of_mem _ hx)), List.cons_append]

theorem xmlEscape_no_lt (s : Str) : ∀ c ∈ xmlEscape s, c ≠ '<' := by
  induction s with
  | nil => simp [xmlEscape]
  | cons c cs ih =>
    intro x hx
    rw [xmlEscape] at hx
    rcases List.mem_append.mp hx with h1 | h1
    · split_ifs at h1 with h2 h3 h4
    -- the four possible chunks
      · exact (by decide : ∀ y ∈ ("&amp;".data), y ≠ '<') x h1
      · exact (by decide : ∀ y ∈ ("&lt;".data), y ≠ '<') x h1
      · exact (by decide : ∀ y ∈ ("&gt;".data), y ≠ '<') x h1
      · rcases List.mem_singleton.mp h1 with rfl
        exact h3
    · exact ih x h1

theorem ite_prop {α : Type} {Q : α → Prop} {P : Prop} [Decidable P] {a b : α}
    (ha : Q a) (hb : Q b) : Q (if P then a else b) := by
  by_cases h : P
  · rwa [if_pos h]
  · rwa [if_neg h]

theorem ite_ne_lt {P : Prop} [inst : Decidable P] {a b : Char} (ha : a ≠ '<')
    (hb : b ≠ '<') : (if P then a else b) ≠ '<' :=
  @ite_prop Char (fun c => c ≠ '<') P inst a b ha hb

theorem ite_str_no_lt {P : Prop} [inst : Decidable P] {a b : String}
    (ha : ∀ c ∈ a.data, c ≠ '<') (hb : ∀ c ∈ b.data, c ≠ '<') :
    ∀ c ∈ (if P then a else b).data, c ≠ '<' :=
  @ite_prop String (fun s => ∀ c ∈ s.data, c ≠ '<') P inst a b ha hb

theorem digitChar_ne_lt (n : Int) : digitChar n ≠ '<' := by
  unfold digitChar
  refine ite_ne_lt ?_ (ite_ne_lt ?_ (ite_ne_lt ?_ (ite_ne_lt ?_ (ite_ne_lt ?_
    (ite_ne_lt ?_ (ite_ne_lt ?_ (ite_ne_lt ?_ (ite_ne_lt ?_ ?_)))))))) <;> decide

theorem weekdayName_no_lt (w : Int) : ∀ c ∈ (weekdayName w).data, c ≠ '<' := by
  unfold weekdayName
  refine ite_str_no_lt ?_ (ite_str_no_lt ?_ (ite_str_no_lt ?_ (ite_str_no_lt ?_
    (ite_str_no_lt ?_ (ite_str_no_lt ?_ ?_))))) <;> decide

theorem monthName_no_lt (m : Int) : ∀ c ∈ (monthName m).data, c ≠ '<' := by
  unfold monthName
  refine ite_str_no_lt ?_ (ite_str_no_lt ?_ (ite_str_no_lt ?_ (ite_str_no_lt ?_
    (ite_str_no_lt ?_ (ite_str_no_lt ?_ (ite_str_no_lt ?_ (ite_str_no_lt ?_
    (ite_str_no_lt ?_ (ite_str_no_lt ?_ (ite_str_no_lt ?_ ?_)))))))))) <;> decide

theorem pad2_no_lt (n : Int) : ∀ c ∈ pad2 n, c ≠ '<' := by
  intro c hc
  rcases List.mem_cons.mp hc with rfl | hc
  · exact digitChar_ne_lt _
  · rcases List.mem_singleton.mp hc with rfl
    exact digitChar_ne_lt _

theorem pad4_no_lt (n : Int) : ∀ c ∈ pad4 n, c ≠ '<' := by
  intro c hc
  rcases List.mem_cons.mp hc with rfl | hc
  · exact digitChar_ne_lt _
  rcases List.mem_cons.mp hc with rfl | hc
  · exact digitChar_ne_lt _
  rcases List.mem_cons.mp hc with rfl | hc
  · exact digitChar_ne_lt _
  rcases List.mem_singleton.mp hc with rfl
  exact digitChar_ne_lt _

theorem rfc822_no_lt (d : Date) : ∀ c ∈ rfc822 d, c ≠ '<' := by
  intro c hc
  unfold rfc822 at hc
  simp only [List.mem_append] at hc
  rcases hc with ((((((h | h) | h) | h) | h) | h) | h) | h
  · exact weekdayName_no_lt _ c h
  · exact (by decide : ∀ y ∈ (", ".data), y ≠ '<') c h
  · exact pad2_no_lt _ c h
  · exact (by decide : ∀ y ∈ (" ".data), y ≠ '<') c h
  · exact monthName_no_lt _ c h
  · exact (by decide : ∀ y ∈ (" ".data), y ≠ '<') c h
  · exact pad4_no_lt _ c h
  · exact (by decide : ∀ y ∈ (" 00:00:00 GMT".data), y ≠ '<') c h

theorem rfc822_ne_nil (d : Date) : rfc822 d ≠ [] := by
  unfold rfc822
  intro h
  rcases List.append_eq_nil.mp h with ⟨-, h2⟩
  exact absurd h2 (by decide)

/-! ### Scanning through a rendered item -/

theorem splitFirst_linkOpen_noLt (seg : Str) (hseg : ∀ c ∈ seg, c ≠ '<')
    (T : Str) :
    splitFirst linkOpen (seg ++ T) =
      (splitFirst linkOpen T).map (fun p => (seg ++ p.1, p.2)) :=
  splitFirst_head_append '<' ['l', 'i', 'n', 'k', '>'] seg hseg T

theorem splitFirst_linkClose_noLt (seg : Str) (hseg : ∀ c ∈ seg, c ≠ '<')
    (T : Str) :
    splitFirst linkClose (seg ++ T) =
      (splitFirst linkClose T).map (fun p => (seg ++ p.1, p.2)) :=
  splitFirst_head_append '<' ['/', 'l', 'i', 'n', 'k', '>'] seg hseg T

theorem splitFirst_linkOpen_segItemTitle (X : Str) :
    splitFirst linkOpen (segItemTitle ++ X) =
      (splitFirst linkOpen X).map (fun p => (segItemTitle ++ p.1, p.2)) := by
  cases h : splitFirst linkOpen X with
  | none =>
    simp [segItemTitle, linkOpen, splitFirst, isPrefixB,
      show splitFirst ['<', 'l', 'i', 'n', 'k', '>'] X = none from h]
  | some p =>
    simp [segItemTitle, linkOpen, splitFirst, isPrefixB,
      show splitFirst ['<', 'l', 'i', 'n', 'k', '>'] X = some p from h]

theorem splitFirst_linkOpen_segTitleLink (X : Str) :
    splitFirst linkOpen (segTitleLink ++ X) =
      some (['<', '/', 't', 'i', 't', 'l', 'e', '>', '\n', ' ', ' '], X) := by
  simp [segTitleLink, linkOpen, splitFirst, isPrefixB]

theorem splitFirst_linkClose_self (X : Str) :
    splitFirst linkClose (linkClose ++ X) = some ([], X) := by
  rw [splitFirst_startsWith (isPrefixB_append_self _ _)]
  simp [linkClose]

theorem extractLink_itemHead (a : Article) (t : Str) :
    extractLink (itemHead a ++ t) = some (xmlEscape a.link.data) := by
  have h1 : splitFirst linkOpen (itemHead a ++ t) =
      some ((segItemTitle ++ (xmlEscape a.title.data ++
          ['<', '/', 't', 'i', 't', 'l', 'e', '>', '\n', ' ', ' '])),
        xmlEscape a.link.data ++ (linkClose ++ t)) := by
    unfold itemHead
    simp only [List.append_assoc]
    rw [splitFirst_linkOpen_segItemTitle,
      splitFirst_linkOpen_noLt _ (xmlEscape_no_lt _),
      splitFirst_linkOpen_segTitleLink]
    rfl
  have h2 : splitFirst linkClose (xmlEscape a.link.data ++ (linkClose ++ t)) =
      some (xmlEscape a.link.data, t) := by
    rw [splitFirst_linkClose_noLt _ (xmlEscape_no_lt _), splitFirst_linkClose_self]
    simp
  unfold extractLink
  rw [h1]
  simp [h2]

theorem extractLink_renderItem (rd : Date) (a : Article) :
    extractLink (renderItem rd a) = some (xmlEscape a.link.data) :=
  extractLink_itemHead a (itemTail rd a)

theorem replaceAll_pub_noLt (repl seg : Str) (hseg : ∀ c ∈ seg, c ≠ '<')
    (T : Str) :
    replaceAll emptyPubDate repl (seg ++ T) =
      seg ++ replaceAll emptyPubDate repl T :=
  replaceAll_head_ne_append '<' (['p', 'u', 'b', 'D', 'a', 't', 'e', '>'] ++ pubClose)
    repl seg hseg T

theorem replaceAll_pub_segItemTitle (repl X : Str) :
    replaceAll emptyPubDate repl (segItemTitle ++ X) =
      segItemTitle ++ replaceAll emptyPubDate repl X := by
  simp [segItemTitle, emptyPubDate, pubOpen, pubClose, replaceAll, isPrefixB]

theorem replaceAll_pub_segTitleLink (repl X : Str) :
    replaceAll emptyPubDate repl (segTitleLink ++ X) =
      segTitleLink ++ replaceAll emptyPubDate repl X := by
  simp [segTitleLink, emptyPubDate, pubOpen, pubClose, replaceAll, isPrefixB]

theorem replaceAll_pub_linkClose (repl X : Str) :
    replaceAll emptyPubDate repl (linkClose ++ X) =
      linkClose ++ replaceAll emptyPubDate repl X := by
  simp [linkClose, emptyPubDate, pubOpen, pubClose, replaceAll, isPrefixB]

theorem backfill_itemHead (F : Str) (a : Article) (t : Str) :
    backfillItem F (itemHead a ++ t) =
      itemHead a ++ replaceAll emptyPubDate (filledPubDate F) t := by
  unfold backfillItem itemHead
  simp only [List.append_assoc]
  rw [replaceAll_pub_segItemTitle, replaceAll_pub_noLt _ _ (xmlEscape_no_lt _),
    replaceAll_pub_segTitleLink, replaceAll_pub_noLt _ _ (xmlEscape_no_lt _),
    replaceAll_pub_linkClose]

theorem extractLink_backfill_renderItem (F : Str) (rd : Date) (a : Article) :
    extractLink (backfillItem F (renderItem rd a)) =
      some (xmlEscape a.link.data) := by
  unfold renderItem
  rw [backfill_itemHead, extractLink_itemHead]

/-! ### Idempotence of the repair pass

`str.replace("<pubDate></pubDate>", "<pubDate>" + D + "</pubDate>")` leaves
no occurrence of the searched marker in its output (for a non-empty `D`
containing no `<`), so applying it a second time changes nothing. -/

theorem drop_eq_getD_cons {α : Type} (d : α) :
    ∀ (l : List α) (n : Nat), n < l.length → l.drop n = l.getD n d :: l.drop (n + 1) := by
  intro l
  induction l with
  | nil => intro n h; simp at h
  | cons a as ih =>
    intro n h
    cases n with
    | zero => simp
    | succ m =>
      have hm : m < as.length := by simpa using h
      simp only [List.drop_succ_cons, List.getD_cons_succ]
      exact ih m hm

theorem emptyPubDate_lt_pos :
    ∀ j : Nat, j < 19 → 1 ≤ j → emptyPubDate.getD j ' ' = '<' → j = 9 := by decide

theorem emptyPubDate_length : emptyPubDate.length = 19 := by decide

theorem containsSub_cons_false {pat : Str} {c : Char} {cs : Str}
    (h : isPrefixB pat (c :: cs) = false) :
    containsSub pat (c :: cs) = containsSub pat cs := by
  rw [containsSub, h, Bool.false_or]

theorem backfill_drift (D : Str) (hne : D ≠ []) (hD : ∀ c ∈ D, c ≠ '<') :
    ∀ (s : Str) (j : Nat), 1 ≤ j → j ≤ 18 →
      isPrefixB (emptyPubDate.drop j)
          (replaceAll emptyPubDate (filledPubDate D) s) = true →
      isPrefixB (emptyPubDate.drop j) s = true := by
  intro s
  induction s using replaceAll.induct emptyPubDate (filledPubDate D) with
  | case1 =>
    intro j h1 h2 hpre
    simp only [replaceAll] at hpre
    rw [isPrefixB_nil_iff] at hpre
    have hlen : (emptyPubDate.drop j).length = 0 := by rw [hpre]; rfl
    rw [List.length_drop, emptyPubDate_length] at hlen
    omega
  | case2 c cs hg ih =>
    intro j h1 h2 hpre
    exfalso
    rw [replaceAll_cons_pos hg.1 hg.2] at hpre
    have hj : j = 9 ∨ emptyPubDate.getD j ' ' ≠ '<' := by
      by_cases hc : emptyPubDate.getD j ' ' = '<'
      · exact Or.inl (emptyPubDate_lt_pos j (by omega) h1 hc)
      · exact Or.inr hc
    rcases hj with rfl | hc
    · rw [(by decide : emptyPubDate.drop 9 = pubClose)] at hpre
      rcases (by
        cases D with
        | nil => exact absurd rfl hne
        | cons d D' => exact ⟨d, D', rfl⟩ :
          ∃ d D', D = d :: D') with ⟨d, D', rfl⟩
      unfold filledPubDate pubOpen pubClose at hpre
      simp [isPrefixB] at hpre
    · rw [drop_eq_getD_cons ' ' emptyPubDate j (by rw [emptyPubDate_length]; omega)]
        at hpre
      have hfalse : isPrefixB
          (emptyPubDate.getD j ' ' :: emptyPubDate.drop (j + 1))
          (filledPubDate D ++
            replaceAll emptyPubDate (filledPubDate D)
              (cs.drop (emptyPubDate.length - 1))) = false := by
        unfold filledPubDate pubOpen
        simp only [List.cons_append, List.append_assoc]
        exact isPrefixB_head_ne (fun h => hc h.symm)
      rw [hfalse] at hpre
      cases hpre
  | case3 c cs hg ih =>
    intro j h1 h2 hpre
    rw [replaceAll_cons_neg hg] at hpre
    rw [drop_eq_getD_cons ' ' emptyPubDate j (by rw [emptyPubDate_length]; omega)]
      at hpre ⊢
    simp only [isPrefixB] at hpre ⊢
    by_cases hc : emptyPubDate.getD j ' ' = c
    · rw [if_pos hc] at hpre ⊢
      by_cases hj : j = 18
      · subst hj
        rw [(by decide : emptyPubDate.drop (18 + 1) = ([] : Str))] at hpre ⊢
        simp [isPrefixB]
      · exact ih (j + 1) (by omega) (by omega) hpre
    · rw [if_neg hc] at hpre
      cases hpre

theorem containsSub_pub_noLt (seg : Str) (hseg : ∀ c ∈ seg, c ≠ '<') (T : Str) :
    containsSub emptyPubDate (seg ++ T) = containsSub emptyPubDate T :=
  containsSub_head_append '<' (['p', 'u', 'b', 'D', 'a', 't', 'e', '>'] ++ pubClose)
    seg hseg T

theorem containsSub_filled_append (D : Str) (hne : D ≠ [])
    (hD : ∀ c ∈ D, c ≠ '<') (T : Str) :
    containsSub emptyPubDate (filledPubDate D ++ T) =
      containsSub emptyPubDate T := by
  rcases (by
    cases D with
    | nil => exact absurd rfl hne
    | cons d D' => exact ⟨d, D', rfl⟩ :
      ∃ d D', D = d :: D') with ⟨d, D', rfl⟩
  have hd : d ≠ '<' := hD d (List.mem_cons_self _ _)
  have hD' : ∀ c ∈ D', c ≠ '<' := fun c hc => hD c (List.mem_cons_of_mem _ hc)
  have h1 : containsSub emptyPubDate (pubClose ++ T) =
      containsSub emptyPubDate T := by
    simp [pubClose, emptyPubDate, pubOpen, containsSub, isPrefixB]
  have h2 : containsSub emptyPubDate (D' ++ (pubClose ++ T)) =
      containsSub emptyPubDate (pubClose ++ T) :=
    containsSub_pub_noLt D' hD' (pubClose ++ T)
  have h0 : containsSub emptyPubDate (filledPubDate (d :: D') ++ T) =
      containsSub emptyPubDate (D' ++ (pubClose ++ T)) := by
    simp [filledPubDate, pubOpen, emptyPubDate, pubClose, containsSub,
      isPrefixB, Ne.symm hd, List.append_assoc]
  rw [h0, h2, h1]

theorem replaceAll_no_pat (D : Str) (hne : D ≠ []) (hD : ∀ c ∈ D, c ≠ '<') :
    ∀ s : Str,
      containsSub emptyPubDate (replaceAll emptyPubDate (filledPubDate D) s) =
        false := by
  intro s
  induction s using replaceAll.induct emptyPubDate (filledPubDate D) with
  | case1 =>
    simp only [replaceAll]
    decide
  | case2 c cs hg ih =>
    rw [replaceAll_cons_pos hg.1 hg.2, containsSub_filled_append D hne hD, ih]
  | case3 c cs hg ih =>
    rw [replaceAll_cons_neg hg, containsSub, ih, Bool.or_false]
    by_cases hc : c = '<'
    · subst hc
      by_contra hpre
      rw [Bool.not_eq_false] at hpre
      have h1 : isPrefixB (emptyPubDate.drop 1)
          (replaceAll emptyPubDate (filledPubDate D) cs) = true := by
        rw [(by decide : emptyPubDate = '<' :: emptyPubDate.drop 1)] at hpre
        simpa [isPrefixB] using hpre
      have h2 := backfill_drift D hne hD cs 1 (by omega) (by omega) h1
      apply hg
      refine ⟨by decide, ?_⟩
      rw [(by decide : emptyPubDate = '<' :: emptyPubDate.drop 1)]
      simpa [isPrefixB] using h2
    · rw [(by decide : emptyPubDate = '<' :: emptyPubDate.drop 1)]
      exact isPrefixB_head_ne (fun h => hc h)

theorem replaceAll_id_of_not_contains (pat repl : Str) :
    ∀ s, containsSub pat s = false → replaceAll pat repl s = s := by
  intro s
  induction s with
  | nil => intro _; simp [replaceAll]
  | cons c cs ih =>
    intro h
    rw [containsSub] at h
    have h12 := Bool.or_eq_false_iff.mp h
    rw [replaceAll_cons_neg (fun hh => by rw [hh.2] at h12; exact absurd h12.1 (by simp)),
      ih h12.2]

theorem backfillItem_idem (F : Str) (hne : F ≠ []) (hF : ∀ c ∈ F, c ≠ '<')
    (i : Str) : backfillItem F (backfillItem F i) = backfillItem F i :=
  replaceAll_id_of_not_contains _ _ _ (replaceAll_no_pat F hne hF i)

/-! ### The deduplicating merge loop -/

theorem dedupByLink_cons_some_mem {S : List Str} {i : Str} {is : List Str}
    {l : Str} (hx : extractLink i = some l) (hl : l ∈ S) :
    dedupByLink S (i :: is) = dedupByLink S is := by
  simp [dedupByLink, hx, hl]

theorem dedupByLink_cons_some_not {S : List Str} {i : Str} {is : List Str}
    {l : Str} (hx : extractLink i = some l) (hl : l ∉ S) :
    dedupByLink S (i :: is) = i :: dedupByLink (l :: S) is := by
  simp [dedupByLink, hx, hl]

theorem dedupByLink_cons_none {S : List Str} {i : Str} {is : List Str}
    (hx : extractLink i = none) :
    dedupByLink S (i :: is) = i :: dedupByLink S is := by
  simp [dedupByLink, hx]

theorem seenAfter_cons_some_mem {S : List Str} {i : Str} {is : List Str}
    {l : Str} (hx : extractLink i = some l) (hl : l ∈ S) :
    seenAfter S (i :: is) = seenAfter S is := by
  simp [seenAfter, hx, hl]

theorem seenAfter_cons_some_not {S : List Str} {i : Str} {is : List Str}
    {l : Str} (hx : extractLink i = some l) (hl : l ∉ S) :
    seenAfter S (i :: is) = seenAfter (l :: S) is := by
  simp [seenAfter, hx, hl]

theorem seenAfter_cons_none {S : List Str} {i : Str} {is : List Str}
    (hx : extractLink i = none) :
    seenAfter S (i :: is) = seenAfter S is := by
  simp [seenAfter, hx]

theorem dedupByLink_append (xs : List Str) :
    ∀ (S : List Str) (ys : List Str),
      dedupByLink S (xs ++ ys) =
        dedupByLink S xs ++ dedupByLink (seenAfter S xs) ys := by
  induction xs with
  | nil => intro S ys; simp [dedupByLink, seenAfter]
  | cons i is ih =>
    intro S ys
    rw [List.cons_append]
    cases hx : extractLink i with
    | some l =>
      by_cases hl : l ∈ S
      · rw [dedupByLink_cons_some_mem hx hl, dedupByLink_cons_some_mem hx hl,
          seenAfter_cons_some_mem hx hl, ih]
      · rw [dedupByLink_cons_some_not hx hl, dedupByLink_cons_some_not hx hl,
          seenAfter_cons_some_not hx hl, ih, List.cons_append]
    | none =>
      rw [dedupByLink_cons_none hx, dedupByLink_cons_none hx,
        seenAfter_cons_none hx, ih, List.cons_append]

theorem mem_seenAfter_sub (xs : List Str) :
    ∀ (S : List Str) (l : Str), l ∈ S → l ∈ seenAfter S xs := by
  induction xs with
  | nil => intro S l h; simpa [seenAfter] using h
  | cons i is ih =>
    intro S l h
    cases hx : extractLink i with
    | some l' =>
      by_cases hl : l' ∈ S
      · rw [seenAfter_cons_some_mem hx hl]
        exact ih S l h
      · rw [seenAfter_cons_some_not hx hl]
        exact ih _ l (List.mem_cons_of_mem _ h)
    | none =>
      rw [seenAfter_cons_none hx]
      exact ih S l h

theorem dedup_links_mem_seenAfter (xs : List Str) :
    ∀ (S : List Str), ∀ i ∈ dedupByLink S xs, ∀ l, extractLink i = some l →
      l ∈ seenAfter S xs := by
  induction xs with
  | nil => intro S i hi; simp [dedupByLink] at hi
  | cons j js ih =>
    intro S i hi l hl
    cases hx : extractLink j with
    | some l' =>
      by_cases hmem : l' ∈ S
      · rw [dedupByLink_cons_some_mem hx hmem] at hi
        rw [seenAfter_cons_some_mem hx hmem]
        exact ih S i hi l hl
      · rw [dedupByLink_cons_some_not hx hmem] at hi
        rw [seenAfter_cons_some_not hx hmem]
        rcases List.mem_cons.mp hi with rfl | hi'
        · rw [hx] at hl
          rcases Option.some.inj hl with rfl
          exact mem_seenAfter_sub js _ _ (List.mem_cons_self _ _)
        · exact ih _ i hi' l hl
    | none =>
      rw [dedupByLink_cons_none hx] at hi
      rw [seenAfter_cons_none hx]
      rcases List.mem_cons.mp hi with rfl | hi'
      · rw [hx] at hl
        cases hl
      · exact ih S i hi' l hl

theorem dedup_all_seen (xs : List Str) :
    ∀ S : List Str, (∀ i ∈ xs, ∃ l, extractLink i = some l ∧ l ∈ S) →
      dedupByLink S xs = [] ∧ seenAfter S xs = S := by
  induction xs with
  | nil => intro S _; exact ⟨rfl, rfl⟩
  | cons i is ih =>
    intro S h
    obtain ⟨l, hl, hlS⟩ := h i (List.mem_cons_self _ _)
    have hrest := ih S (fun j hj => h j (List.mem_cons_of_mem _ hj))
    rw [dedupByLink_cons_some_mem hl hlS, seenAfter_cons_some_mem hl hlS]
    exact hrest

theorem mem_dedup_sub (xs : List Str) :
    ∀ (S : List Str), ∀ i ∈ dedupByLink S xs, i ∈ xs := by
  induction xs with
  | nil => intro S i hi; simp [dedupByLink] at hi
  | cons j js ih =>
    intro S i hi
    cases hx : extractLink j with
    | some l =>
      by_cases hmem : l ∈ S
      · rw [dedupByLink_cons_some_mem hx hmem] at hi
        exact List.mem_cons_of_mem _ (ih S i hi)
      · rw [dedupByLink_cons_some_not hx hmem] at hi
        rcases List.mem_cons.mp hi with rfl | hi'
        · exact List.mem_cons_self _ _
        · exact List.mem_cons_of_mem _ (ih _ i hi')
    | none =>
      rw [dedupByLink_cons_none hx] at hi
      rcases List.mem_cons.mp hi with rfl | hi'
      · exact List.mem_cons_self _ _
      · exact List.mem_cons_of_mem _ (ih S i hi')

theorem dedup_out_links_not_seen (xs : List Str) :
    ∀ (S : List Str), ∀ i ∈ dedupByLink S xs, ∀ l, extractLink i = some l →
      l ∉ S := by
  induction xs with
  | nil => intro S i hi; simp [dedupByLink] at hi
  | cons j js ih =>
    intro S i hi l hl
    cases hx : extractLink j with
    | some l' =>
      by_cases hmem : l' ∈ S
      · rw [dedupByLink_cons_some_mem hx hmem] at hi
        exact ih S i hi l hl
      · rw [dedupByLink_cons_some_not hx hmem] at hi
        rcases List.mem_cons.mp hi with rfl | hi'
        · rw [hx] at hl
          rcases Option.some.inj hl with rfl
          exact hmem
        · intro hlS
          exact ih _ i hi' l hl (List.mem_cons_of_mem _ hlS)
    | none =>
      rw [dedupByLink_cons_none hx] at hi
      rcases List.mem_cons.mp hi with rfl | hi'
      · rw [hx] at hl
        cases hl
      · exact ih S i hi' l hl

theorem dedup_pairwise (xs : List Str) :
    ∀ S : List Str, (dedupByLink S xs).Pairwise linkDistinct := by
  induction xs with
  | nil => intro S; simp [dedupByLink]
  | cons j js ih =>
    intro S
    cases hx : extractLink j with
    | some l =>
      by_cases hmem : l ∈ S
      · rw [dedupByLink_cons_some_mem hx hmem]
        exact ih S
      · rw [dedupByLink_cons_some_not hx hmem]
        refine List.pairwise_cons.mpr ⟨?_, ih _⟩
        intro y hy l0 hl0
        rw [hx] at hl0
        rcases Option.some.inj hl0 with rfl
        intro hy0
        exact dedup_out_links_not_seen js _ y hy l hy0 (List.mem_cons_self _ _)
    | none =>
      rw [dedupByLink_cons_none hx]
      refine List.pairwise_cons.mpr ⟨?_, ih S⟩
      intro y hy l0 hl0
      rw [hx] at hl0
      cases hl0

theorem dedup_invariant_id (xs : List Str) :
    ∀ S : List Str, xs.Pairwise linkDistinct →
      (∀ i ∈ xs, ∀ l, extractLink i = some l → l ∉ S) →
      dedupByLink S xs = xs := by
  induction xs with
  | nil => intro S _ _; rfl
  | cons j js ih =>
    intro S hpw hS
    rcases List.pairwise_cons.mp hpw with ⟨hj, hpw'⟩
    cases hx : extractLink j with
    | some l =>
      have hl : l ∉ S := hS j (List.mem_cons_self _ _) l hx
      rw [dedupByLink_cons_some_not hx hl]
      congr 1
      refine ih _ hpw' ?_
      intro i hi l' hl'
      intro hmem
      rcases List.mem_cons.mp hmem with rfl | hmem'
      · exact hj i hi l' hx hl'
      · exact hS i (List.mem_cons_of_mem _ hi) l' hl' hmem'
    | none =>
      rw [dedupByLink_cons_none hx]
      congr 1
      refine ih S hpw' ?_
      intro i hi l' hl'
      exact hS i (List.mem_cons_of_mem _ hi) l' hl'

/-- The merge loop retains exactly the link-less items of its input, in
order: an item with no parseable link is never dropped as a duplicate. -/
theorem dedup_filter_none (xs : List Str) :
    ∀ S : List Str,
      (dedupByLink S xs).filter (fun i => (extractLink i).isNone) =
        xs.filter (fun i => (extractLink i).isNone) := by
  induction xs with
  | nil => intro S; rfl
  | cons j js ih =>
    intro S
    cases hx : extractLink j with
    | some l =>
      by_cases hmem : l ∈ S
      · rw [dedupByLink_cons_some_mem hx hmem, ih S, List.filter_cons]
        simp [hx]
      · rw [dedupByLink_cons_some_not hx hmem, List.filter_cons,
          List.filter_cons, ih]
    | none =>
      rw [dedupByLink_cons_none hx, List.filter_cons, List.filter_cons, ih S]

theorem map_fix_id {α : Type} (f : α → α) :
    ∀ l : List α, (∀ i ∈ l, f i = i) → l.map f = l := by
  intro l
  induction l with
  | nil => intro _; rfl
  | cons a as ih =>
    intro h
    rw [List.map_cons, h a (List.mem_cons_self _ _),
      ih (fun i hi => h i (List.mem_cons_of_mem _ hi))]

/-- Core of the feed-merge idempotence: if every new item and its backfilled
form expose the same link, and the repair pass fixes every old item, then
re-merging the first merge's output against the same new items reproduces
it. -/
theorem mergeCore_idem (F : Str) (N O : List Str)
    (hlinks : ∀ j ∈ N, ∃ l, extractLink j = some l ∧
      extractLink (backfillItem F j) = some l)
    (hOfix : ∀ i ∈ O, backfillItem F i = i) :
    (dedupByLink [] (N ++
        ((dedupByLink [] (N ++ O)).take 50).map (backfillItem F))).take 50 =
      (dedupByLink [] (N ++ O)).take 50 := by
  rw [dedupByLink_append N [] O]
  rw [dedupByLink_append N []]
  rw [List.take_append_eq_append_take, List.take_append_eq_append_take]
  by_cases hlen : (dedupByLink [] N).length ≤ 50
  · congr 1
    rw [List.take_of_length_le hlen, List.map_append, dedupByLink_append]
    have hall : ∀ i ∈ (dedupByLink [] N).map (backfillItem F),
        ∃ l, extractLink i = some l ∧ l ∈ seenAfter [] N := by
      intro i hi
      rcases List.mem_map.mp hi with ⟨j, hj, rfl⟩
      rcases hlinks j (mem_dedup_sub N [] j hj) with ⟨l, hl, hbl⟩
      exact ⟨l, hbl, dedup_links_mem_seenAfter N [] j hj l hl⟩
    have hkill := dedup_all_seen ((dedupByLink [] N).map (backfillItem F))
      (seenAfter [] N) hall
    rw [hkill.1, hkill.2, List.nil_append]
    have hfixtake : ∀ i ∈ (dedupByLink (seenAfter [] N) O).take
        (50 - (dedupByLink [] N).length), backfillItem F i = i := by
      intro i hi
      exact hOfix i (mem_dedup_sub O _ i (List.mem_of_mem_take hi))
    rw [map_fix_id _ _ hfixtake]
    have hinv : dedupByLink (seenAfter [] N)
        ((dedupByLink (seenAfter [] N) O).take
          (50 - (dedupByLink [] N).length)) =
        (dedupByLink (seenAfter [] N) O).take
          (50 - (dedupByLink [] N).length) := by
      refine dedup_invariant_id _ _ ?_ ?_
      · exact List.Pairwise.sublist (List.take_sublist _ _)
          (dedup_pairwise O (seenAfter [] N))
      · intro i hi l hl
        exact dedup_out_links_not_seen O (seenAfter [] N) i
          (List.mem_of_mem_take hi) l hl
    rw [hinv, List.take_take, min_self]
  · have h0 : 50 - (dedupByLink [] N).length = 0 := by omega
    rw [h0]
    simp

/-- Claim C5: the rolling-feed merge is idempotent — for every run date,
every record batch (its qualifying records are selected inside the merge)
and every existing feed, merging the same day's records a second time, with
the first merge's output as the existing feed, reproduces the first merge's
output exactly. -/
theorem claim_C5 (rd : Date) (arts : List Article) (old : List Str) :
    mergeFeed rd arts (mergeFeed rd arts old) = mergeFeed rd arts old := by
  unfold mergeFeed
  refine mergeCore_idem (rfc822 rd) (newFeedItems rd arts)
    (old.map (backfillItem (rfc822 rd))) ?_ ?_
  · intro j hj
    unfold newFeedItems at hj
    rcases List.mem_map.mp hj with ⟨a, _, rfl⟩
    exact ⟨xmlEscape a.link.data, extractLink_renderItem rd a,
      extractLink_backfill_renderItem _ rd a⟩
  · intro i hi
    rcases List.mem_map.mp hi with ⟨j, _, rfl⟩
    exact backfillItem_idem _ (rfc822_ne_nil rd) (rfc822_no_lt rd) j

/-- Claim C6: after every rolling-feed merge — for every run date, record
batch and existing feed — the resulting feed holds at most 50 items and no
two of its items share an extractable link. -/
theorem claim_C6 (rd : Date) (arts : List Article) (old : List Str) :
    (mergeFeed rd arts old).length ≤ 50 ∧
      (mergeFeed rd arts old).Pairwise linkDistinct := by
  unfold mergeFeed
  exact ⟨List.length_take_le _ _,
    List.Pairwise.sublist (List.take_sublist _ _) (dedup_pairwise _ _)⟩

/-- Claim C10: link-based deduplication applies only to items exposing a
parseable `<link>` element.  The merge loop preserves the link-less items of
its input exactly (first conjunct, for every seen-set and item list), and
concretely a feed of two distinct link-less items survives one merge — and a
repeated merge — untouched, so repeated merges keep multiple link-less
items side by side. -/
theorem claim_C10 :
    (∀ (S xs : List Str),
      (dedupByLink S xs).filter (fun i => (extractLink i).isNone) =
        xs.filter (fun i => (extractLink i).isNone)) ∧
    mergeFeed rdW [] [itemNoLink1, itemNoLink2] =
      [itemNoLink1, itemNoLink2] ∧
    mergeFeed rdW [] (mergeFeed rdW [] [itemNoLink1, itemNoLink2]) =
      [itemNoLink1, itemNoLink2] := by
  have h1 : backfillItem (rfc822 rdW) itemNoLink1 = itemNoLink1 :=
    replaceAll_id_of_not_contains _ _ _ (by decide)
  have h2 : backfillItem (rfc822 rdW) itemNoLink2 = itemNoLink2 :=
    replaceAll_id_of_not_contains _ _ _ (by decide)
  have hm : mergeFeed rdW [] [itemNoLink1, itemNoLink2] =
      [itemNoLink1, itemNoLink2] := by
    show (dedupByLink [] (newFeedItems rdW [] ++
        ([itemNoLink1, itemNoLink2].map (backfillItem (rfc822 rdW))))).take 50 =
      [itemNoLink1, itemNoLink2]
    rw [List.map_cons, List.map_cons, List.map_nil, h1, h2]
    decide
  exact ⟨fun S xs => dedup_filter_none xs S, hm, by rw [hm]; exact hm⟩

end Harvest
